import Mathlib

/-!
Verification of the backups2datalad synchronization engine.

This file gives a shallow embedding, in Lean, of the pure decision logic of
the `backups2datalad` mirroring tool (`src/backups2datalad/`), and proves or
refutes the specification claims about it.  Timestamps are modelled as
integers (seconds); Python dicts are modelled as association lists with
the Python update-in-place / append-at-end semantics; Python sets are modelled
as duplicate-free-by-construction lists; exceptions are modelled with
`Except` / an `Option String` error field.
-/

namespace B2D

/-- Kind of a remote asset (`dandi.dandiapi.AssetType`): a plain blob or a
Zarr directory asset. -/
inductive AssetType where
  | blob
  | zarr
deriving DecidableEq, Repr

/-- A remote asset as seen by the syncer (`RemoteAsset` in `adandi.py`,
which is not part of the sources; fields are the ones the embedded code
reads).  `digest` is the digest relevant to the type of the asset — the SHA256
digest for a blob, the Zarr checksum for a Zarr — with `none` standing for
the server-side `NotFoundError` (digest not yet computed).  `mdId` abstracts
the full metadata dictionary `asset.json_dict()`: two assets have equal
metadata iff their `mdId`s are equal.  `created` is a timestamp in
seconds. -/
structure RAsset where
  path : String
  created : Int
  atype : AssetType
  digest : Option String
  size : Int
  baseDownloadUrl : String
  mdId : Nat
deriving DecidableEq, Repr

/-- A dandiset version (`RemoteDandiset` versions): identifier and creation
timestamp, the only fields `aiterassets` reads. -/
structure RVersion where
  identifier : String
  created : Int
deriving DecidableEq, Repr

/-! ### Python dict / set helpers

`dinsert` is `d[k] = v` (update in place, else append), `dlookup` is
`d.get(k)`, `derase` is `d.pop(k, None)`; `sinsert` is `s.add(x)` and
`sdiscard` is `s.discard(x)`. -/

/-- Dict lookup: first binding of the key. -/
def dlookup {α : Type} (k : String) : List (String × α) → Option α
  | [] => none
  | (k', v) :: rest => if k' = k then some v else dlookup k rest

/-- Dict update: replace the first binding of the key, else append. -/
def dinsert {α : Type} (k : String) (v : α) : List (String × α) → List (String × α)
  | [] => [(k, v)]
  | (k', v') :: rest => if k' = k then (k, v) :: rest else (k', v') :: dinsert k v rest

/-- Dict removal of a key. -/
def derase {α : Type} (k : String) (m : List (String × α)) : List (String × α) :=
  m.filter (fun kv => kv.1 ≠ k)

/-- Set insertion. -/
def sinsert (x : String) (s : List String) : List String :=
  if x ∈ s then s else s ++ [x]

/-- Set removal. -/
def sdiscard (x : String) (s : List String) : List String :=
  s.filter (fun y => y ≠ x)

theorem dlookup_dinsert_self {α : Type} (k : String) (v : α) (m : List (String × α)) :
    dlookup k (dinsert k v m) = some v := by
  induction m with
  | nil => simp [dinsert, dlookup]
  | cons kv rest ih =>
      obtain ⟨k', v'⟩ := kv
      by_cases h : k' = k
      · simp [dinsert, dlookup, h]
      · simp [dinsert, dlookup, h, ih]

theorem dlookup_dinsert_ne {α : Type} (k k₀ : String) (v : α) (m : List (String × α))
    (h : k₀ ≠ k) : dlookup k₀ (dinsert k v m) = dlookup k₀ m := by
  have h' : ¬k = k₀ := fun e => h e.symm
  induction m with
  | nil => simp [dinsert, dlookup, h']
  | cons kv rest ih =>
      obtain ⟨k', v'⟩ := kv
      by_cases hk : k' = k
      · subst hk
        simp [dinsert, dlookup, h']
      · by_cases hk0 : k' = k₀ <;> simp [dinsert, dlookup, hk, hk0, ih, h]

theorem dlookup_derase {α : Type} (k k₀ : String) (m : List (String × α)) :
    dlookup k₀ (derase k m) = if k₀ = k then none else dlookup k₀ m := by
  induction m with
  | nil => simp [derase, dlookup]
  | cons kv rest ih =>
      obtain ⟨k', v'⟩ := kv
      by_cases hk : k' = k
      · subst hk
        by_cases hk0 : k' = k₀ <;>
          simp_all [derase, dlookup, List.filter]
      · by_cases hk0 : k' = k₀ <;>
          by_cases hkk : k₀ = k <;>
          simp_all [derase, dlookup, List.filter]

theorem mem_sinsert (x y : String) (s : List String) :
    y ∈ sinsert x s ↔ y = x ∨ y ∈ s := by
  unfold sinsert
  by_cases h : x ∈ s
  · simp [h]
    intro hyx
    subst hyx
    exact h
  · simp [h, or_comm]

theorem mem_sdiscard (x y : String) (s : List String) :
    y ∈ sdiscard x s ↔ y ∈ s ∧ y ≠ x := by
  simp [sdiscard]

/-! ### `util.quantify` and the per-segment `Report` (`asyncer.py`) -/

/-- Embeds `util.quantify`. -/
def quantify (qty : Nat) (singular : String) (plural : Option String) : String :=
  if qty = 1 then toString qty ++ " " ++ singular
  else match plural with
    | none => toString qty ++ " " ++ singular ++ "s"
    | some p => toString qty ++ " " ++ p

/-- Embeds the `Report` dataclass of `asyncer.py` (download statistics for
one dandiset / one version segment). -/
structure Report where
  commits : Nat := 0
  added : Nat := 0
  updated : Nat := 0
  registered : Nat := 0
  downloaded : Nat := 0
  failed : Nat := 0
  hash_mismatches : Nat := 0
  old_unhashed : Nat := 0
deriving DecidableEq, Repr

/-- Embeds `Report.get_commit_message`: only the `added` and `updated`
counters contribute segments; a Python `if self.added:` test is `≠ 0`. -/
def Report.get_commit_message (r : Report) : String :=
  let msgparts : List String :=
    (if r.added ≠ 0 then [quantify r.added "file" none ++ " added"] else []) ++
    (if r.updated ≠ 0 then [quantify r.updated "file" none ++ " updated"] else [])
  let msgparts := if msgparts = [] then ["Only some metadata updates"] else msgparts
  "[backups2datalad] " ++ String.intercalate ", " msgparts

/-- Embeds `Report.check`: collect an error line per nonzero error counter
and raise iff any was collected. -/
def Report.check (r : Report) : Except String Unit :=
  let errors : List String :=
    (if r.failed ≠ 0 then [quantify r.failed "asset" none ++ " failed to download"] else []) ++
    (if r.hash_mismatches ≠ 0 then
      [quantify r.hash_mismatches "asset" none ++ " had the wrong hash after downloading"]
     else []) ++
    (if r.old_unhashed ≠ 0 then
      [quantify r.old_unhashed "asset" none ++
        " on server had no SHA256 hash despite advanced age"]
     else [])
  if errors ≠ [] then
    .error ("Errors occurred while downloading: " ++ String.intercalate "; " errors)
  else .ok ()

/-- Embeds `Downloader.check_unannexed_hash`: recompute the sha256 of the file
(`computed`) and compare with the server digest; a mismatch only bumps the
`hash_mismatches` counter — no exception is raised. -/
def check_unannexed_hash (r : Report) (sha256_digest computed : String) : Report :=
  if sha256_digest ≠ computed then
    { r with hash_mismatches := r.hash_mismatches + 1 }
  else r

/-! ### `util.AssetTracker`

Metadata dictionaries map asset paths to metadata values; a metadata value
is abstracted by the `mdId` of the asset (see `RAsset`). -/

/-- Embeds the `AssetTracker` dataclass of `util.py`. -/
structure AssetTracker where
  local_assets : List String
  in_progress : List (String × Nat)
  asset_metadata : List (String × Nat)
  future_assets : List String
  remote_assets : List String
deriving DecidableEq, Repr

/-- Embeds `util.asset2dict` (`asset.json_dict()`), abstracted to the
metadata identity of the asset. -/
def asset2dict (a : RAsset) : Nat := a.mdId

/-- Embeds `AssetTracker.register_asset`.  The returned `Option String` is
the metadata diff: `some` iff the metadata changed since the last sync or a
forced update was requested (the diff text itself is irrelevant to every
claim and is abstracted to fixed strings). -/
def register_asset (t : AssetTracker) (a : RAsset) (force : Option String) :
    AssetTracker × Option String :=
  let t' : AssetTracker :=
    { t with
        local_assets := sdiscard a.path t.local_assets
        in_progress := dinsert a.path (asset2dict a) t.in_progress }
  let old_metadata := dlookup a.path t.asset_metadata
  if old_metadata ≠ some (asset2dict a) then (t', some "<metadata diff>")
  else if force = some "assets-update" then (t', some "<Forced update via --force assets-update>")
  else (t', none)

/-- Embeds `AssetTracker.finish_asset`: promote `in_progress[path]` to the
durable map.  `none` models the `KeyError` Python raises when the path was
never registered. -/
def finish_asset (t : AssetTracker) (path : String) : Option AssetTracker :=
  match dlookup path t.in_progress with
  | none => none
  | some md =>
      some { t with
              asset_metadata := dinsert path md t.asset_metadata
              in_progress := derase path t.in_progress }

/-- Total wrapper for `finish_asset` at call sites that follow a
`register_asset` of the same path, where the `KeyError` case is
unreachable (the tracker is returned unchanged in that dead branch). -/
def finish_asset! (t : AssetTracker) (path : String) : AssetTracker :=
  (finish_asset t path).getD t

/-- Embeds `AssetTracker.mark_future`. -/
def mark_future (t : AssetTracker) (a : RAsset) : AssetTracker :=
  { t with future_assets := sinsert a.path t.future_assets }

/-- The walk of `AssetTracker.get_deleted` over `local_assets`: for every
path matching the configured asset filter, pop its metadata and yield
it. -/
def get_deleted_go (matchAsset : String → Bool) :
    List String → AssetTracker → List String → AssetTracker × List String
  | [], t, acc => (t, acc)
  | ap :: rest, t, acc =>
      if matchAsset ap then
        get_deleted_go matchAsset rest
          { t with asset_metadata := derase ap t.asset_metadata } (acc ++ [ap])
      else get_deleted_go matchAsset rest t acc

/-- Embeds `AssetTracker.get_deleted`, run to exhaustion.  Returns the
updated tracker and the yielded paths in order. -/
def get_deleted (t : AssetTracker) (matchAsset : String → Bool) :
    AssetTracker × List String :=
  get_deleted_go matchAsset t.local_assets t []

/-- Embeds `AssetTracker.prune_metadata`: drop every metadata entry whose
path was not seen from the server this run and return the dropped paths. -/
def prune_metadata (t : AssetTracker) : AssetTracker × List String :=
  ({ t with
      asset_metadata := t.asset_metadata.filter (fun kv => kv.1 ∈ t.remote_assets) },
   (t.asset_metadata.map Prod.fst).filter (fun p => p ∉ t.remote_assets))

/-- Embeds `AssetTracker.future_qty`. -/
def future_qty (t : AssetTracker) : Nat := t.future_assets.length

/-- The key set of the durable metadata map, as a membership test (the
paths that `AssetTracker.dump` writes to `assets.json`). -/
def tracker_has (t : AssetTracker) (p : String) : Bool :=
  (dlookup p t.asset_metadata).isSome

/-! ### The asset enumerator `aiterassets` (`asyncer.py`)

`aiterassets` yields `Option RAsset` items: `some a` for an asset, `none`
for the `VersionBoundary` sentinel.  The Python generator additionally sets
a `done_flag` after the last asset; an out-of-order asset makes the
`assert` fail, aborting the generator (no flag, no further items). -/

/-- The comparison key used by `vs.sort(key=attrgetter("created"))`. -/
def vleR : RVersion → RVersion → Prop := fun v w => v.created ≤ w.created

instance : DecidableRel vleR := fun v w => inferInstanceAs (Decidable (v.created ≤ w.created))

instance : IsTotal RVersion vleR := ⟨fun a b => Int.le_total a.created b.created⟩

instance : IsTrans RVersion vleR := ⟨fun _ _ _ hab hbc => le_trans hab hbc⟩

/-- Embeds `vs.sort(key=attrgetter("created"))` (a stable sort by creation
timestamp). -/
def sortVersions (vs : List RVersion) : List RVersion :=
  List.insertionSort vleR vs

/-- The generator assertion `assert last_ts is None or last_ts <= asset.created`. -/
def tsOk (lastTs : Option Int) (c : Int) : Bool :=
  match lastTs with
  | none => true
  | some t => t ≤ c

/-- The guard `last_ts is None or last_ts < versions[0].created`. -/
def tsLt (lastTs : Option Int) (c : Int) : Bool :=
  match lastTs with
  | none => true
  | some t => t < c

/-- The full boundary condition of `aiterassets`:
`versions and (last_ts is None or last_ts < versions[0].created) and
asset.created >= versions[0].created`. -/
def popCond (vs : List RVersion) (lastTs : Option Int) (c : Int) : Bool :=
  match vs with
  | [] => false
  | v :: _ => tsLt lastTs v.created && decide (v.created ≤ c)

/-- Result of running the enumerator to completion: the yielded items, the
`done_flag` (false iff the ordering assertion failed), and the versions
still pending in the deque. -/
structure AiterOut where
  output : List (Option RAsset)
  done : Bool
  pending : List RVersion
deriving DecidableEq, Repr

/-- The loop body of `aiterassets` over the remaining assets, carrying the
pending version deque and `last_ts`. -/
def aiterassetsAux : List RVersion → Option Int → List RAsset → AiterOut
  | vs, _, [] => ⟨[], true, vs⟩
  | vs, lastTs, a :: rest =>
      if tsOk lastTs a.created then
        if popCond vs lastTs a.created then
          let r := aiterassetsAux vs.tail (some a.created) rest
          ⟨none :: some a :: r.output, r.done, r.pending⟩
        else
          let r := aiterassetsAux vs (some a.created) rest
          ⟨some a :: r.output, r.done, r.pending⟩
      else ⟨[], false, vs⟩

/-- Embeds `aiterassets`: when syncing the draft version the pending deque
is the non-draft version list sorted by creation time, otherwise it is
empty. -/
def aiterassets (isDraft : Bool) (versions : List RVersion) (assets : List RAsset) :
    AiterOut :=
  aiterassetsAux (if isDraft then sortVersions versions else []) none assets

/-- Length of the longest prefix of the asset stream on which the ordering
assertion holds (continuing from `lastTs`). -/
def okPrefixLen : Option Int → List RAsset → Nat
  | _, [] => 0
  | lastTs, a :: rest =>
      if tsOk lastTs a.created then okPrefixLen (some a.created) rest + 1 else 0

/-- Boolean test that the whole asset stream has non-decreasing `created`
timestamps (continuing from `lastTs`). -/
def nondecFrom : Option Int → List RAsset → Bool
  | _, [] => true
  | lastTs, a :: rest => tsOk lastTs a.created && nondecFrom (some a.created) rest

/-- Number of boundary sentinels in an output stream. -/
def countNones (items : List (Option RAsset)) : Nat :=
  items.countP (fun it => it.isNone)

/-- Checks that every sentinel is immediately followed by an asset item
(hence: no sentinel at the end and no two adjacent sentinels). -/
def noneFollowed : List (Option RAsset) → Bool
  | [] => true
  | none :: rest =>
      match rest with
      | some _ :: rest' => noneFollowed rest'
      | _ => false
  | some _ :: rest => noneFollowed rest

/-- The asset item immediately following each sentinel, in order (an
unfollowed sentinel, which `noneFollowed` rules out, contributes
nothing). -/
def boundaryAssets : List (Option RAsset) → List RAsset
  | [] => []
  | [none] => []
  | none :: none :: rest => boundaryAssets rest
  | none :: some a :: rest => a :: boundaryAssets rest
  | some _ :: rest => boundaryAssets rest

/-- Boolean pairwise-ascending test on a version list. -/
def sortedVls : List RVersion → Bool
  | [] => true
  | [_] => true
  | v :: w :: rest => decide (v.created ≤ w.created) && sortedVls (w :: rest)

/-! ### `Downloader.asset_loop` (`asyncer.py`)

The loop consumes enumerator items until the first boundary sentinel (a
`break`), keeping the one-way `downloading` flag.  Spawning
`process_blob` / `process_zarr` tasks is recorded as an action; the loop
itself performs no repository writes. -/

/-- A task spawned by `asset_loop`: `process_blob` with the blob SHA256
digest, or `process_zarr` with the Zarr checksum. -/
inductive DLAction where
  | processBlob (path : String) (sha256 : String)
  | processZarr (path : String) (digest : String)
deriving DecidableEq, Repr

/-- Path the spawned task is about. -/
def DLAction.path : DLAction → String
  | .processBlob p _ => p
  | .processZarr p _ => p

/-- State carried by `asset_loop`: the `downloading` flag, the shared
`AssetTracker`, the `Report` counters, and the spawned tasks in order. -/
structure DLState where
  downloading : Bool
  tracker : AssetTracker
  report : Report
  actions : List DLAction
deriving DecidableEq, Repr

/-- One day, the age threshold `timedelta(days=1)` in seconds. -/
def ONE_DAY : Int := 86400

/-- One iteration of the `async for` body of `Downloader.asset_loop` for an
asset item (comments cite the Python statements). -/
def asset_loop_step (now : Int) (embargoed : Bool) (st : DLState) (a : RAsset) :
    Except String DLState :=
  -- self.tracker.remote_assets.add(asset.path)
  let st := { st with
    tracker := { st.tracker with
      remote_assets := sinsert a.path st.tracker.remote_assets } }
  -- if downloading: dispatch on asset type and digest availability
  ((if st.downloading then
      match a.atype, a.digest with
      | .zarr, dg =>
          if embargoed then
            .error ("Dandiset is embargoed and contains a Zarr at " ++ a.path ++
              "; do not know how to handle")
          else
            match dg with
            | none => .ok { st with downloading := false }
            | some d => .ok { st with actions := st.actions ++ [.processZarr a.path d] }
      | .blob, none => .ok { st with downloading := false }
      | .blob, some d =>
          .ok { st with actions := st.actions ++ [.processBlob a.path d] }
    else .ok st : Except String DLState)).map
  -- if not downloading: mark future; count old unhashed blobs
  (fun st =>
    if st.downloading then st
    else
      let st := { st with tracker := mark_future st.tracker a }
      if a.atype = .blob ∧ now - a.created > ONE_DAY then
        match a.digest with
        | none =>
            { st with report := { st.report with
                old_unhashed := st.report.old_unhashed + 1 } }
        | some _ => st
      else st)

/-- The `async for` loop of `asset_loop`: stops at the first boundary
sentinel (`if asset is None: break`) or at the end of the stream. -/
def asset_loop_go (now : Int) (embargoed : Bool) (st : DLState) :
    List (Option RAsset) → Except String DLState
  | [] => .ok st
  | none :: _ => .ok st
  | some a :: rest =>
      match asset_loop_step now embargoed st a with
      | .error e => .error e
      | .ok st' => asset_loop_go now embargoed st' rest

/-- Embeds `Downloader.asset_loop` started on a fresh `Downloader`
(`downloading = True`, empty report and action list) with tracker `t`. -/
def asset_loop (now : Int) (embargoed : Bool) (t : AssetTracker)
    (items : List (Option RAsset)) : Except String DLState :=
  asset_loop_go now embargoed ⟨true, t, {}, []⟩ items

/-- The asset items `asset_loop` consumes: the stream up to the first
boundary sentinel. -/
def consumedAssets : List (Option RAsset) → List RAsset
  | [] => []
  | none :: _ => []
  | some a :: rest => a :: consumedAssets rest

/-- An asset whose required digest is unavailable: a blob without a SHA256
digest or a Zarr without a checksum.  Encountering such an asset clears the
`downloading` flag. -/
def lacksDigest (a : RAsset) : Bool := a.digest.isNone

/-- The spawned task for an asset whose digest is available. -/
def dlActionOf (a : RAsset) : DLAction :=
  match a.atype with
  | .blob => .processBlob a.path (a.digest.getD "")
  | .zarr => .processZarr a.path (a.digest.getD "")

/-- The condition under which the deferred-asset branch bumps
`old_unhashed`: a blob more than a day old whose SHA256 is still
missing. -/
def oldUnhashedCond (now : Int) (a : RAsset) : Bool :=
  (a.atype == .blob) && decide (now - a.created > ONE_DAY) && a.digest.isNone

/-! ### `Downloader.process_blob` (`asyncer.py`) and verify-mode guards

Repository mutations are recorded as `MutAction`s; an
`UnexpectedChangeError` (or other exception) aborts the function, so the
recorded actions are exactly the mutations performed before the raise. -/

/-- A state-mutating repository operation. -/
inductive MutAction where
  | removePath (p : String)
  | fromKey (key p : String)
  | registerUrl (p url : String)
  | download (p url : String)
  | removeBatch (ps : List String)
  | writeChecksum (c : String)
  | setEmbargo (embargoed : Bool)
deriving DecidableEq, Repr

/-- Outcome of one modelled syncer step: the tracker, report-counter
deltas, the repository mutations performed, and the exception raised (if
any) after those mutations. -/
structure StepOut where
  tracker : AssetTracker
  added : Nat := 0
  updated : Nat := 0
  registered : Nat := 0
  actions : List MutAction := []
  error : Option String := none
deriving DecidableEq, Repr

/-- The canonical annex key `examinekey` computes for a blob
(`SHA256E-s{size}--{sha256}` plus the filename extension, abstracted by
appending the filename). -/
def mkkey (fname : String) (size : Int) (hash : String) : String :=
  "SHA256E-s" ++ toString size ++ "--" ++ hash ++ "." ++ fname

/-- Embeds `Downloader.process_blob`.  Environment inputs: `destHash` is
`none` when `blob.path` does not exist in the working tree, else the hash
`get_annex_hash` reports for it; `isBinary` is `blob.is_binary()`;
`bucketUrl` is the S3 URL `get_file_bucket_url` returns. -/
def process_blob (error_on_change : Bool) (force : Option String)
    (matchAsset : String → Bool) (embargoed : Bool) (t : AssetTracker)
    (b : RAsset) (sha256_digest : String) (destHash : Option String)
    (isBinary : Bool) (bucketUrl : String) : StepOut :=
  let (t1, md_diff) := register_asset t b force
  match md_diff with
  | none =>
      -- metadata unchanged; not taking any further action
      { tracker := finish_asset! t1 b.path }
  | some _ =>
      if ¬ matchAsset b.path then
        -- Skipping asset
        { tracker := finish_asset! t1 b.path }
      else if error_on_change then
        { tracker := t1
          error := some "UnexpectedChangeError: Metadata for asset was changed/added but draft timestamp was not updated on server" }
      else
        -- Syncing
        let dec : Bool × StepOut :=
          if destHash = none then
            -- Not in dataset; will add
            (true, { tracker := t1, added := 1 })
          else if some sha256_digest = destHash then
            -- hash shows no modification; will not update
            (false, { tracker := finish_asset! t1 b.path })
          else
            -- hash shows modification; will update
            (true, { tracker := t1, updated := 1 })
        let to_update := dec.1
        let out := dec.2
        if to_update then
          -- await self.ds.remove(blob.path)
          let acts := [MutAction.removePath b.path]
          if isBinary then
            let key := mkkey b.path b.size sha256_digest
            let acts := acts ++ [MutAction.fromKey key b.path]
            let acts := acts ++
              (if ¬ embargoed then [MutAction.registerUrl b.path bucketUrl] else [])
            let acts := acts ++ [MutAction.registerUrl b.path b.baseDownloadUrl]
            { out with
                tracker := finish_asset! out.tracker b.path
                registered := 1
                actions := acts }
          else if b.size > 10485760 then
            -- identified as text but too large: RuntimeError after the remove
            { out with
                actions := acts
                error := some "RuntimeError: identified as text but too large" }
          else
            { out with actions := acts ++ [MutAction.download b.path b.baseDownloadUrl] }
        else out

/-- Embeds `Syncer.prune_deleted` (`syncer.py`) fused with the lazy
`AssetTracker.get_deleted` generator it drains: walking `local_assets`,
each matching path is popped from the metadata map by the generator, then
the loop body raises under `error_on_change` (before any deletion) or
removes the file and counts it. -/
def prune_deleted_go (error_on_change : Bool) (matchAsset : String → Bool) :
    List String → AssetTracker → List MutAction → Nat →
    AssetTracker × List MutAction × Nat × Option String
  | [], t, acts, n => (t, acts, n, none)
  | ap :: rest, t, acts, n =>
      if matchAsset ap then
        let t := { t with asset_metadata := derase ap t.asset_metadata }
        if error_on_change then
          (t, acts, n,
           some "UnexpectedChangeError: Asset deleted from Dandiset but timestamp was not updated on server")
        else
          prune_deleted_go error_on_change matchAsset rest t
            (acts ++ [MutAction.removePath ap]) (n + 1)
      else prune_deleted_go error_on_change matchAsset rest t acts n

/-- Entry point for `Syncer.prune_deleted`. -/
def prune_deleted (error_on_change : Bool) (t : AssetTracker)
    (matchAsset : String → Bool) : AssetTracker × List MutAction × Nat × Option String :=
  prune_deleted_go error_on_change matchAsset t.local_assets t [] 0

/-- Embeds `ZarrSyncer.check_change` (`zarr.py`): raises
`UnexpectedChangeError` iff running under `error_on_change`. -/
def check_change (error_on_change : Bool) : Option String :=
  if error_on_change then
    some "UnexpectedChangeError: changed, but Dandiset draft timestamp was not updated on server"
  else none

/-- Embeds the deletion step of `ZarrSyncer.run` /
`ZarrSyncer.prune_deleted`: with a non-empty `to_delete` set,
`check_change` runs before the batch removal. -/
def zarr_prune_deleted (error_on_change : Bool) (toDelete : List String) :
    List MutAction × Option String :=
  if toDelete ≠ [] then
    match check_change error_on_change with
    | some e => ([], some e)
    | none => ([MutAction.removeBatch toDelete], none)
  else ([], none)

/-- Embeds the checksum-file update at the end of `ZarrSyncer.run`: when
the stored checksum differs from the computed one, `check_change` runs
before the file write. -/
def zarr_update_checksum (error_on_change : Bool) (stored : Option String)
    (finalChecksum : String) : List MutAction × Option String :=
  if stored ≠ some finalChecksum then
    match check_change error_on_change with
    | some e => ([], some e)
    | none => ([MutAction.writeChecksum finalChecksum], none)
  else ([], none)

/-- Embeds the embargo transition of `Syncer.update_embargo_status`
(`syncer.py`): a status flip raises under `error_on_change` before any
state is written (the follow-up commits and URL re-registrations are
performed only after the flip is recorded and are subsumed in the single
`setEmbargo` action). -/
def update_embargo_status (error_on_change : Bool) (oldEmbargoed newEmbargoed : Bool) :
    List MutAction × Option String :=
  if oldEmbargoed ≠ newEmbargoed then
    if error_on_change then
      ([], some "UnexpectedChangeError: Embargo status changed but timestamp was not updated on server")
    else ([MutAction.setEmbargo newEmbargoed], none)
  else ([], none)

/-! ### The per-Zarr sync loop of `ZarrSyncer.run` (`zarr.py`)

The loop body (S3 listing, entry diff, writes) is abstracted into an
environment `env : Nat → ZarrObs` giving, for each iteration, the locally
computed tree checksum after the writes, the `modified` timestamp of the asset
on refetch, and the server checksum.  Only the loop control — iteration
counting against `MAX_ZARR_SYNCS` — is the subject of the claim. -/

/-- `consts.MAX_ZARR_SYNCS`. -/
def MAX_ZARR_SYNCS : Nat := 5

/-- What one execution of the loop body observes at its end. -/
structure ZarrObs where
  finalChecksum : String
  modified : Int
  remoteChecksum : Option String
deriving DecidableEq, Repr

/-- How one iteration of the `while True` loop ends. -/
inductive ZarrStop where
  | noRemoteChecksum
  | matched
  | warnChanged
  | fatalMismatch
deriving DecidableEq, Repr

/-- The condition under which an iteration loops back to step 1: the
server still reports a checksum, it differs from the local one, and the
`modified` timestamp of the asset did not change during the sync. -/
def zarr_cont (origModified : Int) (ob : ZarrObs) : Bool :=
  match ob.remoteChecksum with
  | none => false
  | some rc => decide (ob.finalChecksum ≠ rc) && decide (ob.modified = origModified)

/-- How a non-continuing iteration ends (mirrors the `if` cascade at the
end of the loop body; the `fatalMismatch` branch is the budget-exhausted
`RuntimeError`). -/
def zarr_classify (origModified : Int) (ob : ZarrObs) : ZarrStop :=
  match ob.remoteChecksum with
  | none => .noRemoteChecksum
  | some rc =>
      if ob.finalChecksum = rc then .matched
      else if ob.modified ≠ origModified then .warnChanged
      else .fatalMismatch

/-- The `while True` loop of `ZarrSyncer.run` from iteration `k` with `i`
prior mismatching iterations: on a mismatch without server change, `i` is
incremented and the loop continues while `i < MAX_ZARR_SYNCS`, else the
budget-exhausted `RuntimeError` is raised.  Returns how the loop ended and
how many times the body ran. -/
def zarr_run_loop (origModified : Int) (env : Nat → ZarrObs) (k i : Nat) :
    ZarrStop × Nat :=
  let ob := env k
  match ob.remoteChecksum with
  | none => (.noRemoteChecksum, k + 1)
  | some rc =>
      if ob.finalChecksum ≠ rc then
        if ob.modified ≠ origModified then (.warnChanged, k + 1)
        else if i + 1 < MAX_ZARR_SYNCS then zarr_run_loop origModified env (k + 1) (i + 1)
        else (.fatalMismatch, k + 1)
      else (.matched, k + 1)
termination_by MAX_ZARR_SYNCS - i
decreasing_by omega

/-- The full loop, started with `i = 0`. -/
def zarr_run (origModified : Int) (env : Nat → ZarrObs) : ZarrStop × Nat :=
  zarr_run_loop origModified env 0 0

/-! ### Commit messages (`syncer.py`, `asyncer.py`) -/

/-- Embeds `Syncer.get_commit_message`: the `added` / `updated` segments
are included only when syncing a non-draft version; then deletions,
garbage-collected assets and not-yet-downloaded (future) assets. -/
def syncer_commit_message (versionId : String) (r : Report) (deleted : Nat)
    (garbageAssets : List String) (futureQty : Nat) : String :=
  let msgparts : List String :=
    (if versionId ≠ "draft" then
      (if r.added ≠ 0 then [quantify r.added "file" none ++ " added"] else []) ++
      (if r.updated ≠ 0 then [quantify r.updated "file" none ++ " updated"] else [])
     else []) ++
    (if deleted ≠ 0 then [quantify deleted "file" none ++ " deleted"] else []) ++
    (if garbageAssets.length ≠ 0 then
      [quantify garbageAssets.length "asset" none ++
        " garbage-collected from .dandi/assets.json"]
     else []) ++
    (if futureQty ≠ 0 then [quantify futureQty "asset" none ++ " not yet downloaded"] else [])
  let msgparts := if msgparts = [] then ["Only some metadata updates"] else msgparts
  "[backups2datalad] " ++ String.intercalate ", " msgparts

/-- The commit-message grammar exactly as the specification states it:
the prefix, then the comma-joined nonempty segments for the nonzero counts
among added / updated / deleted / garbage-collected / not-yet-downloaded,
or "Only some metadata updates" when all five counts are zero.  This
definition is written from the words of the claim, to be compared with the
message builders of the code. -/
def claimMessage (added updated deleted garbage future : Nat) : String :=
  let segs : List String :=
    (if added ≠ 0 then [quantify added "file" none ++ " added"] else []) ++
    (if updated ≠ 0 then [quantify updated "file" none ++ " updated"] else []) ++
    (if deleted ≠ 0 then [quantify deleted "file" none ++ " deleted"] else []) ++
    (if garbage ≠ 0 then
      [quantify garbage "asset" none ++ " garbage-collected from .dandi/assets.json"]
     else []) ++
    (if future ≠ 0 then [quantify future "asset" none ++ " not yet downloaded"] else [])
  "[backups2datalad] " ++
    (if segs = [] then "Only some metadata updates" else String.intercalate ", " segs)

/-! ### `util.exp_wait` and `AsyncDataset.push` retries -/

/-- The value `exp_wait` yields at position `n`:
`(base ** n * multiplier) * (1 + (random.random() - 0.5) * jitter)`, with
the random draws supplied by `rand`. -/
def exp_wait_val (base multiplier jitter : ℚ) (rand : ℕ → ℚ) (n : ℕ) : ℚ :=
  (base ^ n * multiplier) * (1 + (rand n - 1/2) * jitter)

/-- Embeds `util.exp_wait` with a finite `attempts` bound: the list of the
`attempts` values the generator yields. -/
def exp_wait (base multiplier : ℚ) (attempts : ℕ) (jitter : ℚ) (rand : ℕ → ℚ) :
    List ℚ :=
  (List.range attempts).map (exp_wait_val base multiplier jitter rand)

/-- Outcome of one `datalad push` attempt as `AsyncDataset.push` sees it:
success, a `CommandError` containing "unexpected disconnect", or any other
`CommandError`. -/
inductive PushOutcome where
  | success
  | transientDisconnect
  | fatal
deriving DecidableEq, Repr

/-- The retry loop of `AsyncDataset.push` (`adataset.py`): on a transient
disconnect it consumes the next wait from the generator and retries, and
re-raises when the generator is exhausted (`StopIteration`); other errors
re-raise at once.  Returns the waits actually slept and whether the push
ultimately raised. -/
def push_loop (outcome : ℕ → PushOutcome) : ℕ → List ℚ → List ℚ × Bool
  | k, [] =>
      match outcome k with
      | .success => ([], false)
      | .fatal => ([], true)
      | .transientDisconnect => ([], true)
  | k, w :: rest =>
      match outcome k with
      | .success => ([], false)
      | .fatal => ([], true)
      | .transientDisconnect =>
          let r := push_loop outcome (k + 1) rest
          (w :: r.1, r.2)

/-- Embeds `AsyncDataset.push`: the wait generator is
`exp_wait(attempts=6, base=2.1)` (multiplier 1, jitter 0.1 by default). -/
def push (rand : ℕ → ℚ) (outcome : ℕ → PushOutcome) : List ℚ × Bool :=
  push_loop outcome 0 (exp_wait (21/10) 1 6 (1/10) rand)

/-! ### The tracker life cycle of one successful run (for the
`assets.json` key-set invariant)

`syncRunStep` performs, for one remote asset, the tracker effects of a
fully successful handling: the `remote_assets.add` done by `asset_loop`,
then `register_asset` followed by `finish_asset` (as `process_blob` /
`process_zarr` do on every path that completes). -/

/-- One remote asset registered and finished. -/
def syncRunStep (force : Option String) (t : AssetTracker) (a : RAsset) :
    Option AssetTracker :=
  finish_asset
    (register_asset { t with remote_assets := sinsert a.path t.remote_assets } a force).1
    a.path

/-- A whole successful run: every remote asset registered and finished in
stream order. -/
def syncRun (force : Option String) : AssetTracker → List RAsset → Option AssetTracker
  | t, [] => some t
  | t, a :: rest =>
      match syncRunStep force t a with
      | none => none
      | some t' => syncRun force t' rest

/-- The tracker `AssetTracker.from_dataset` builds at sync start: the
filesystem snapshot and the parsed `assets.json`, with `in_progress`,
`future_assets` and `remote_assets` empty. -/
def trackerFromDataset (localAssets : List String) (assetMetadata : List (String × Nat)) :
    AssetTracker :=
  ⟨localAssets, [], assetMetadata, [], []⟩

/-- Helper: a proposition about the success value of an `Except` result
(trivially true on the error branch, where the claims say nothing). -/
@[reducible]
def onOk {α : Type} (r : Except String α) (P : α → Prop) : Prop :=
  match r with
  | .error _ => True
  | .ok st => P st

/-- Helper: a proposition about the value of an `Option` result
(trivially true on the `none` branch). -/
@[reducible]
def onSome {α : Type} (o : Option α) (P : α → Prop) : Prop :=
  match o with
  | none => True
  | some x => P x

/-- C2 exactly as claimed: after a successful run (every remote asset
registered and finished, then `get_deleted` iterated, then
`prune_metadata`), the key set of the durable map is
`remote_assets ∩ matched_by_filter`. -/
def C2Statement : Prop :=
  ∀ (localA : List String) (md0 : List (String × Nat)) (matchAsset : String → Bool)
    (force : Option String) (assets : List RAsset) (p : String),
    onSome (syncRun force (trackerFromDataset localA md0) assets) (fun tN =>
      tracker_has (prune_metadata (get_deleted tN matchAsset).1).1 p =
        ((assets.map RAsset.path).contains p && matchAsset p))

/-- The prefix of the consumed assets processed while `downloading` was
still set (up to, not including, the first asset lacking its digest). -/
def dlPre (as : List RAsset) : List RAsset :=
  as.takeWhile (fun a => !lacksDigest a)

/-- The suffix of the consumed assets from the first digest-lacking asset
on: these are only marked as future assets. -/
def dlPost (as : List RAsset) : List RAsset :=
  as.drop (dlPre as).length

/-- C3 exactly as claimed: every blob lacking a SHA256 digest is deferred,
and `old_unhashed` counts exactly the deferred blobs lacking a digest
whose age is at least (`≥`) one day. -/
def C3Statement : Prop :=
  ∀ (now : Int) (t : AssetTracker) (items : List (Option RAsset)),
    t.future_assets = [] →
    ((consumedAssets items).map RAsset.path).Nodup →
    onOk (asset_loop now false t items) (fun st =>
      (∀ a ∈ consumedAssets items, a.atype = .blob → a.digest = none →
        a.path ∈ st.tracker.future_assets ∧ ∀ act ∈ st.actions, act.path ≠ a.path) ∧
      st.report.old_unhashed =
        (consumedAssets items).countP (fun a =>
          decide (a.path ∈ st.tracker.future_assets) && (a.atype == .blob) &&
          a.digest.isNone && decide (now - a.created ≥ ONE_DAY)))

/-- A version that some asset of the stream crosses (an asset whose
`created` is at or after the `created` of the version exists). -/
def crossedBy (assets : List RAsset) (v : RVersion) : Bool :=
  assets.any (fun a => decide (v.created ≤ a.created))

/-- C1 exactly as claimed: the pending deque is held in ascending creation
order, and for every pending version that some asset crosses the
enumerator yields exactly one sentinel, immediately before the first
crossing asset, removing the version from the deque; sentinels appear
nowhere else. -/
def C1Statement : Prop :=
  ∀ (versions : List RVersion) (assets : List RAsset),
    nondecFrom none assets = true →
    sortedVls (sortVersions versions) = true ∧
    countNones (aiterassets true versions assets).output =
      (versions.filter (crossedBy assets)).length ∧
    (aiterassets true versions assets).pending =
      (sortVersions versions).filter (fun v => !crossedBy assets v) ∧
    (boundaryAssets (aiterassets true versions assets).output).map some =
      ((sortVersions versions).filter (crossedBy assets)).map
        (fun v => assets.find? (fun a => decide (v.created ≤ a.created))) ∧
    noneFollowed (aiterassets true versions assets).output = true

/-- C7 exactly as claimed: every dandiset commit message — the per-segment
message of `Report.get_commit_message` and the final message of
`Syncer.get_commit_message` — follows the five-segment grammar for the
corresponding nonzero counts. -/
def C7Statement : Prop :=
  (∀ r : Report, Report.get_commit_message r = claimMessage r.added r.updated 0 0 0) ∧
  (∀ (versionId : String) (r : Report) (deleted : Nat) (garbageAssets : List String)
      (futureQty : Nat),
    syncer_commit_message versionId r deleted garbageAssets futureQty =
      claimMessage r.added r.updated deleted garbageAssets.length futureQty)

/-! ## Theorems -/

/-- C6: a blob whose recomputed sha256 differs from the server digest does
not abort the sync at that point — `check_unannexed_hash` only increments
`hash_mismatches`, leaving every other counter unchanged — and the
per-dandiset `Report.check` raises an error iff at least one of `failed`,
`hash_mismatches`, `old_unhashed` is positive. -/
theorem C6_hash_mismatch_deferred_failure :
    ∀ (r : Report) (sha computed : String),
      (check_unannexed_hash r sha computed).hash_mismatches =
        r.hash_mismatches + (if sha ≠ computed then 1 else 0) ∧
      (check_unannexed_hash r sha computed).failed = r.failed ∧
      (check_unannexed_hash r sha computed).added = r.added ∧
      (check_unannexed_hash r sha computed).updated = r.updated ∧
      (check_unannexed_hash r sha computed).registered = r.registered ∧
      (check_unannexed_hash r sha computed).downloaded = r.downloaded ∧
      (check_unannexed_hash r sha computed).old_unhashed = r.old_unhashed ∧
      (check_unannexed_hash r sha computed).commits = r.commits ∧
      ((∃ e, Report.check r = .error e) ↔
        0 < r.failed ∨ 0 < r.hash_mismatches ∨ 0 < r.old_unhashed) := by
  intro r sha computed
  refine ⟨?_, ?_, ?_, ?_, ?_, ?_, ?_, ?_, ?_⟩ <;>
    first
    | (unfold check_unannexed_hash; split <;> simp)
    | (unfold Report.check
       by_cases h1 : r.failed = 0 <;> by_cases h2 : r.hash_mismatches = 0 <;>
         by_cases h3 : r.old_unhashed = 0 <;>
         simp [h1, h2, h3, Nat.pos_of_ne_zero])

theorem push_loop_take (outcome : ℕ → PushOutcome) :
    ∀ (ws : List ℚ) (k : ℕ), ∃ j, j ≤ ws.length ∧ (push_loop outcome k ws).1 = ws.take j := by
  intro ws
  induction ws with
  | nil =>
      intro k
      refine ⟨0, by simp, ?_⟩
      rcases houtcome : outcome k <;> simp [push_loop, houtcome]
  | cons w rest ih =>
      intro k
      obtain ⟨j, hj, htake⟩ := ih (k + 1)
      rcases houtcome : outcome k with _ | _ | _
      · exact ⟨0, by simp, by simp [push_loop, houtcome]⟩
      · exact ⟨j + 1, by simpa using hj, by simp [push_loop, houtcome, htake]⟩
      · exact ⟨0, by simp, by simp [push_loop, houtcome]⟩

/-- C8: the exponential-backoff generator yields exactly `attempts`
values, the `n`-th being `base ^ n * multiplier` scaled by the jitter
factor `1 + (rand n - 1/2) * jitter`, which lies in
`[1 - jitter/2, 1 + jitter/2]` whenever the random draw lies in `[0, 1]`
and the jitter is nonnegative; and `AsyncDataset.push` consumes the waits
of `exp_wait` with base `2.1` and `6` attempts (multiplier 1, jitter 0.1),
sleeping a prefix of at most 6 of them. -/
theorem C8_exp_wait_backoff :
    ∀ (base multiplier jitter : ℚ) (attempts : ℕ) (rand : ℕ → ℚ),
      (exp_wait base multiplier attempts jitter rand).length = attempts ∧
      (∀ n, n < attempts →
        (exp_wait base multiplier attempts jitter rand)[n]? =
          some ((base ^ n * multiplier) * (1 + (rand n - 1/2) * jitter))) ∧
      (∀ n, 0 ≤ rand n → rand n ≤ 1 → 0 ≤ jitter →
        1 - jitter / 2 ≤ 1 + (rand n - 1/2) * jitter ∧
        1 + (rand n - 1/2) * jitter ≤ 1 + jitter / 2) ∧
      (∀ outcome, ∃ k, k ≤ 6 ∧
        (push rand outcome).1 = (exp_wait (21/10) 1 6 (1/10) rand).take k) := by
  intro base multiplier jitter attempts rand
  refine ⟨by simp [exp_wait], ?_, ?_, ?_⟩
  · intro n hn
    simp [exp_wait, exp_wait_val, hn]
  · intro n h0 h1 hj
    constructor <;> nlinarith [mul_le_mul_of_nonneg_right (by linarith : rand n - 1/2 ≤ 1/2) hj,
      mul_le_mul_of_nonneg_right (by linarith : -(1/2 : ℚ) ≤ rand n - 1/2) hj]
  · intro outcome
    obtain ⟨j, hj, htake⟩ := push_loop_take outcome (exp_wait (21/10) 1 6 (1/10) rand) 0
    exact ⟨j, by simpa [exp_wait] using hj, htake⟩

/-- Witness for C8 at a concrete instance: two attempts, constant random
draw 1/2, jitter 1/10. -/
theorem C8_exp_wait_backoff_witness :
    (exp_wait 2 1 2 (1/10) (fun _ => 1/2)).length = 2 ∧
    (exp_wait 2 1 2 (1/10) (fun _ => 1/2))[1]? =
      some ((2 ^ 1 * 1) * (1 + ((1:ℚ)/2 - 1/2) * (1/10))) ∧
    1 - (1:ℚ)/10/2 ≤ 1 + ((1:ℚ)/2 - 1/2) * (1/10) := by
  have h := C8_exp_wait_backoff 2 1 (1/10) 2 (fun _ => 1/2)
  exact ⟨h.1, h.2.1 1 (by norm_num),
    (h.2.2.1 1 (by norm_num) (by norm_num) (by norm_num)).1⟩

theorem intercalate_single (s x : String) : String.intercalate s [x] = x := by
  simp [String.intercalate, String.intercalate.go]

/-- C7 counterexample: on a draft sync with one file added and one file
deleted, `Syncer.get_commit_message` omits the "1 file added" segment the
grammar calls for. -/
theorem C7_counterexample : ¬ C7Statement := by
  intro h
  have h2 := h.2 "draft" { added := 1 } 1 [] 0
  revert h2
  decide

/-- C7 amended: `Report.get_commit_message` follows the grammar with the
deleted / garbage-collected / not-yet-downloaded counts read as zero, and
`Syncer.get_commit_message` follows the grammar except that when syncing
the draft version the added / updated counts are suppressed (those files
were already reported by the per-segment commit messages). -/
theorem C7_commit_message_grammar :
    ∀ (versionId : String) (r : Report) (deleted : Nat) (garbageAssets : List String)
      (futureQty : Nat),
      Report.get_commit_message r = claimMessage r.added r.updated 0 0 0 ∧
      syncer_commit_message versionId r deleted garbageAssets futureQty =
        claimMessage (if versionId = "draft" then 0 else r.added)
          (if versionId = "draft" then 0 else r.updated) deleted
          garbageAssets.length futureQty := by
  intro versionId r deleted garbageAssets futureQty
  constructor
  · unfold Report.get_commit_message claimMessage
    by_cases ha : r.added = 0 <;> by_cases hu : r.updated = 0 <;>
      simp [ha, hu, intercalate_single]
  · unfold syncer_commit_message claimMessage
    by_cases hd : versionId = "draft"
    · by_cases h1 : deleted = 0 <;> by_cases h2 : garbageAssets.length = 0 <;>
        by_cases h3 : futureQty = 0 <;>
        simp [hd, h1, h2, h3, intercalate_single]
    · by_cases ha : r.added = 0 <;> by_cases hu : r.updated = 0 <;>
        by_cases h1 : deleted = 0 <;> by_cases h2 : garbageAssets.length = 0 <;>
        by_cases h3 : futureQty = 0 <;>
        simp [hd, ha, hu, h1, h2, h3, intercalate_single]

/-- Witness for C7: the amended grammar at a concrete non-draft state. -/
theorem C7_commit_message_grammar_witness :
    syncer_commit_message "0.210831.2033" { added := 2 } 1 [] 0 =
      claimMessage (if "0.210831.2033" = "draft" then 0 else 2)
        (if "0.210831.2033" = "draft" then 0 else 0) 1 ([] : List String).length 0 :=
  (C7_commit_message_grammar "0.210831.2033" { added := 2 } 1 [] 0).2

theorem prune_deleted_go_eoc_actions (matchAsset : String → Bool) :
    ∀ (l : List String) (t : AssetTracker) (acts : List MutAction) (n : Nat),
      (prune_deleted_go true matchAsset l t acts n).2.1 = acts := by
  intro l
  induction l with
  | nil => intro t acts n; simp [prune_deleted_go]
  | cons ap rest ih =>
      intro t acts n
      by_cases h : matchAsset ap = true <;> simp [prune_deleted_go, h, ih]

theorem prune_deleted_go_false_actions (matchAsset : String → Bool) :
    ∀ (l : List String) (t : AssetTracker) (acts : List MutAction) (n : Nat),
      (prune_deleted_go false matchAsset l t acts n).2.1 =
        acts ++ (l.filter matchAsset).map MutAction.removePath := by
  intro l
  induction l with
  | nil => intro t acts n; simp [prune_deleted_go]
  | cons ap rest ih =>
      intro t acts n
      by_cases h : matchAsset ap = true <;> simp [prune_deleted_go, h, ih]

theorem prune_deleted_go_eoc_error (matchAsset : String → Bool) :
    ∀ (l : List String) (t : AssetTracker) (acts : List MutAction) (n : Nat),
      l.filter matchAsset ≠ [] →
      (prune_deleted_go true matchAsset l t acts n).2.2.2.isSome = true := by
  intro l
  induction l with
  | nil => intro t acts n h; simp at h
  | cons ap rest ih =>
      intro t acts n h
      by_cases hm : matchAsset ap = true
      · simp [prune_deleted_go, hm]
      · simp only [List.filter_cons, hm, Bool.false_eq_true, if_false] at h
        simpa [prune_deleted_go, hm] using ih _ acts n (by simpa using h)

/-- C5: under `error_on_change` (verify mode) every modelled sync decision
that would mutate state — adding or updating a blob asset
(`process_blob`), deleting assets (`Syncer.prune_deleted`), deleting or
rewriting Zarr entries and the stored Zarr checksum (the
`ZarrSyncer.check_change` call sites), and flipping the embargo status —
performs no repository mutation: its action trace is empty, and whenever
the same inputs would mutate state without verify mode, verify mode raises
an `UnexpectedChangeError` instead. -/
theorem C5_verify_mode_mutates_nothing :
    ∀ (force : Option String) (matchAsset : String → Bool) (embargoed : Bool)
      (t t' : AssetTracker) (b : RAsset) (sha : String) (destHash : Option String)
      (isBinary : Bool) (bucketUrl : String) (toDelete : List String)
      (stored : Option String) (finalChecksum : String) (oldE newE : Bool),
      (process_blob true force matchAsset embargoed t b sha destHash isBinary bucketUrl).actions
          = [] ∧
      ((process_blob false force matchAsset embargoed t b sha destHash isBinary
          bucketUrl).actions ≠ [] →
        (process_blob true force matchAsset embargoed t b sha destHash isBinary
          bucketUrl).error.isSome = true) ∧
      (prune_deleted true t' matchAsset).2.1 = [] ∧
      ((prune_deleted false t' matchAsset).2.1 ≠ [] →
        (prune_deleted true t' matchAsset).2.2.2.isSome = true) ∧
      (zarr_prune_deleted true toDelete).1 = [] ∧
      ((zarr_prune_deleted false toDelete).1 ≠ [] →
        (zarr_prune_deleted true toDelete).2.isSome = true) ∧
      (zarr_update_checksum true stored finalChecksum).1 = [] ∧
      ((zarr_update_checksum false stored finalChecksum).1 ≠ [] →
        (zarr_update_checksum true stored finalChecksum).2.isSome = true) ∧
      (update_embargo_status true oldE newE).1 = [] ∧
      ((update_embargo_status false oldE newE).1 ≠ [] →
        (update_embargo_status true oldE newE).2.isSome = true) := by
  intro force matchAsset embargoed t t' b sha destHash isBinary bucketUrl toDelete
    stored finalChecksum oldE newE
  refine ⟨?_, ?_, ?_, ?_, ?_, ?_, ?_, ?_, ?_, ?_⟩
  · unfold process_blob
    rcases register_asset t b force with ⟨t1, md⟩
    rcases md with _ | d <;> simp
    by_cases hm : matchAsset b.path = true <;> simp [hm]
  · unfold process_blob
    rcases register_asset t b force with ⟨t1, md⟩
    rcases md with _ | d <;> simp
    by_cases hm : matchAsset b.path = true <;> simp [hm]
  · exact prune_deleted_go_eoc_actions matchAsset t'.local_assets t' [] 0
  · intro h
    have h' : t'.local_assets.filter matchAsset ≠ [] := by
      intro hemp
      apply h
      rw [show (prune_deleted false t' matchAsset) =
        prune_deleted_go false matchAsset t'.local_assets t' [] 0 from rfl,
        prune_deleted_go_false_actions, hemp]
      simp
    exact prune_deleted_go_eoc_error matchAsset t'.local_assets t' [] 0 h'
  · unfold zarr_prune_deleted check_change
    split <;> simp
  · unfold zarr_prune_deleted check_change
    split <;> simp
  · unfold zarr_update_checksum check_change
    split <;> simp
  · unfold zarr_update_checksum check_change
    split <;> simp
  · unfold update_embargo_status
    split <;> simp
  · unfold update_embargo_status
    split <;> simp

/-- Witness for C5 at concrete inputs where the non-verify run would
mutate (a changed matching blob, a deletable local asset, a non-empty Zarr
delete set, a changed checksum, an embargo flip), applying the theorem and
discharging its implications there. -/
theorem C5_verify_mode_mutates_nothing_witness :
    (process_blob true none (fun _ => true) false ⟨[], [], [], [], []⟩
        ⟨"a.dat", 0, .blob, some "h", 4, "u", 1⟩ "h" none true "bu").actions = [] ∧
    (process_blob true none (fun _ => true) false ⟨[], [], [], [], []⟩
        ⟨"a.dat", 0, .blob, some "h", 4, "u", 1⟩ "h" none true "bu").error.isSome = true ∧
    (prune_deleted true ⟨["gone.txt"], [], [("gone.txt", 7)], [], []⟩
        (fun _ => true)).2.1 = [] ∧
    (prune_deleted true ⟨["gone.txt"], [], [("gone.txt", 7)], [], []⟩
        (fun _ => true)).2.2.2.isSome = true ∧
    (zarr_prune_deleted true ["0/0"]).1 = [] ∧
    (zarr_prune_deleted true ["0/0"]).2.isSome = true ∧
    (zarr_update_checksum true (some "old") "new").1 = [] ∧
    (zarr_update_checksum true (some "old") "new").2.isSome = true ∧
    (update_embargo_status true true false).1 = [] ∧
    (update_embargo_status true true false).2.isSome = true := by
  have h := C5_verify_mode_mutates_nothing none (fun _ => true) false
    ⟨[], [], [], [], []⟩ ⟨["gone.txt"], [], [("gone.txt", 7)], [], []⟩
    ⟨"a.dat", 0, .blob, some "h", 4, "u", 1⟩ "h" none true "bu" ["0/0"]
    (some "old") "new" true false
  exact ⟨h.1, h.2.1 (by decide), h.2.2.1, h.2.2.2.1 (by decide), h.2.2.2.2.1,
    h.2.2.2.2.2.1 (by decide), h.2.2.2.2.2.2.1, h.2.2.2.2.2.2.2.1 (by decide),
    h.2.2.2.2.2.2.2.2.1, h.2.2.2.2.2.2.2.2.2 (by decide)⟩

theorem zarr_run_loop_count_le (orig : Int) (env : Nat → ZarrObs) :
    ∀ (n i k : Nat), MAX_ZARR_SYNCS - i ≤ n → i < MAX_ZARR_SYNCS →
      (zarr_run_loop orig env k i).2 ≤ k + (MAX_ZARR_SYNCS - i) := by
  intro n
  induction n with
  | zero => intro i k h hi; omega
  | succ n ih =>
      intro i k h hi
      rw [zarr_run_loop]
      rcases henv : (env k).remoteChecksum with _ | rc
      · simp [henv]; omega
      · simp only [henv]
        by_cases hne : (env k).finalChecksum ≠ rc
        · by_cases hch : (env k).modified ≠ orig
          · simp [hne, hch]; omega
          · by_cases hb : i + 1 < MAX_ZARR_SYNCS
            · have := ih (i + 1) (k + 1) (by omega) hb
              simp only [hne, hch, hb, if_true, if_false, ite_true, ite_false]
              simp only [if_pos hne, if_neg hch, if_pos hb]
              omega
            · simp [hne, hch, hb]; omega
        · simp [hne]; omega

theorem zarr_run_loop_fatal (orig : Int) (env : Nat → ZarrObs) :
    ∀ (n i k : Nat), MAX_ZARR_SYNCS - i ≤ n → i < MAX_ZARR_SYNCS →
      (∀ m, m < MAX_ZARR_SYNCS - i → zarr_cont orig (env (k + m)) = true) →
      zarr_run_loop orig env k i = (.fatalMismatch, k + (MAX_ZARR_SYNCS - i)) := by
  intro n
  induction n with
  | zero => intro i k h hi; omega
  | succ n ih =>
      intro i k h hi hcont
      have h0 := hcont 0 (by omega)
      simp only [Nat.add_zero] at h0
      unfold zarr_cont at h0
      rcases henv : (env k).remoteChecksum with _ | rc
      · rw [henv] at h0; simp at h0
      · rw [henv] at h0
        simp only [Bool.and_eq_true, decide_eq_true_eq] at h0
        obtain ⟨hne, hmod⟩ := h0
        rw [zarr_run_loop]
        simp only [henv]
        rw [if_pos hne, if_neg (by simpa using hmod)]
        by_cases hb : i + 1 < MAX_ZARR_SYNCS
        · rw [if_pos hb]
          have := ih (i + 1) (k + 1) (by omega) hb (fun m hm => by
            have := hcont (m + 1) (by omega)
            simpa [Nat.add_assoc, Nat.add_comm 1 m] using this)
          rw [this]
          congr 1
          omega
        · rw [if_neg hb]
          have : MAX_ZARR_SYNCS - i = 1 := by omega
          rw [this]

theorem zarr_run_loop_first_stop (orig : Int) (env : Nat → ZarrObs) :
    ∀ (j i k : Nat), i < MAX_ZARR_SYNCS → j < MAX_ZARR_SYNCS - i →
      (∀ m, m < j → zarr_cont orig (env (k + m)) = true) →
      zarr_cont orig (env (k + j)) = false →
      zarr_run_loop orig env k i = (zarr_classify orig (env (k + j)), k + j + 1) := by
  intro j
  induction j with
  | zero =>
      intro i k hi hj hcont hstop
      simp only [Nat.add_zero] at hstop ⊢
      unfold zarr_cont at hstop
      rw [zarr_run_loop]
      rcases henv : (env k).remoteChecksum with _ | rc
      · simp [zarr_classify, henv]
      · rw [henv] at hstop
        simp only [Bool.and_eq_true, decide_eq_true_eq] at hstop
        by_cases hne : (env k).finalChecksum ≠ rc
        · have hmod : (env k).modified ≠ orig := by
            intro hmm
            simp [hne, hmm] at hstop
          simp [henv, hne, hmod, zarr_classify]
        · simp [henv, hne, zarr_classify, not_not.mp hne]
  | succ j ih =>
      intro i k hi hj hcont hstop
      have h0 := hcont 0 (by omega)
      simp only [Nat.add_zero] at h0
      unfold zarr_cont at h0
      rcases henv : (env k).remoteChecksum with _ | rc
      · rw [henv] at h0; simp at h0
      · rw [henv] at h0
        simp only [Bool.and_eq_true, decide_eq_true_eq] at h0
        obtain ⟨hne, hmod⟩ := h0
        rw [zarr_run_loop]
        simp only [henv]
        rw [if_pos hne, if_neg (by simpa using hmod)]
        have hb : i + 1 < MAX_ZARR_SYNCS := by omega
        rw [if_pos hb]
        have := ih (i + 1) (k + 1) hb (by omega)
          (fun m hm => by
            have := hcont (m + 1) (by omega)
            simpa [Nat.add_assoc, Nat.add_comm 1 m] using this)
          (by
            have : k + 1 + j = k + (j + 1) := by omega
            rw [this]
            exact hstop)
        rw [this]
        have harg : k + 1 + j = k + (j + 1) := by omega
        rw [harg]

theorem zarr_classify_ne_fatal (orig : Int) (ob : ZarrObs)
    (h : zarr_cont orig ob = false) : zarr_classify orig ob ≠ .fatalMismatch := by
  unfold zarr_cont at h
  unfold zarr_classify
  rcases hr : ob.remoteChecksum with _ | rc
  · simp
  · rw [hr] at h
    by_cases hne : ob.finalChecksum = rc
    · simp [hne]
    · have hmod : ob.modified ≠ orig := by
        intro hm
        simp [hne, hm] at h
      simp [hne, hmod]

/-- C4: the per-Zarr sync loop of `ZarrSyncer.run` executes its body at
most `MAX_ZARR_SYNCS` (5) times; it ends with the budget-exhausted fatal
error exactly when all 5 iterations observe a local/server checksum
mismatch with an unchanged asset `modified` timestamp; otherwise it stops
right after the first iteration that does not loop, and in particular a
mismatch accompanied by a server-side `modified` change stops the loop
with a warning rather than failing. -/
theorem C4_zarr_sync_budget :
    ∀ (origModified : Int) (env : Nat → ZarrObs),
      (zarr_run origModified env).2 ≤ MAX_ZARR_SYNCS ∧
      ((∀ k, k < MAX_ZARR_SYNCS → zarr_cont origModified (env k) = true) →
        zarr_run origModified env = (.fatalMismatch, MAX_ZARR_SYNCS)) ∧
      ((zarr_run origModified env).1 = .fatalMismatch →
        ∀ k, k < MAX_ZARR_SYNCS → zarr_cont origModified (env k) = true) ∧
      (∀ j, j < MAX_ZARR_SYNCS → (∀ m, m < j → zarr_cont origModified (env m) = true) →
        zarr_cont origModified (env j) = false →
        zarr_run origModified env = (zarr_classify origModified (env j), j + 1)) ∧
      (∀ (ob : ZarrObs) (rc : String), ob.remoteChecksum = some rc →
        ob.finalChecksum ≠ rc → ob.modified ≠ origModified →
        zarr_classify origModified ob = .warnChanged) := by
  intro orig env
  have hstop : ∀ j, j < MAX_ZARR_SYNCS → (∀ m, m < j → zarr_cont orig (env m) = true) →
      zarr_cont orig (env j) = false →
      zarr_run orig env = (zarr_classify orig (env j), j + 1) := by
    intro j hj hcont hstop
    have := zarr_run_loop_first_stop orig env j 0 0 (by norm_num [MAX_ZARR_SYNCS])
      (by simpa [MAX_ZARR_SYNCS] using hj)
      (fun m hm => by simpa using hcont m hm) (by simpa using hstop)
    simpa [zarr_run] using this
  refine ⟨?_, ?_, ?_, hstop, ?_⟩
  · have := zarr_run_loop_count_le orig env MAX_ZARR_SYNCS 0 0 (by omega)
      (by norm_num [MAX_ZARR_SYNCS])
    simpa [zarr_run] using this
  · intro hall
    have := zarr_run_loop_fatal orig env MAX_ZARR_SYNCS 0 0 (by omega)
      (by norm_num [MAX_ZARR_SYNCS])
      (fun m hm => by
        have := hall m (by simpa using hm)
        simpa using this)
    simpa [zarr_run] using this
  · intro hfatal
    by_contra hnot
    push_neg at hnot
    obtain ⟨k0, hk0, hk0f⟩ := hnot
    have hex : ∃ k, zarr_cont orig (env k) = false :=
      ⟨k0, by simpa using hk0f⟩
    classical
    let j := Nat.find hex
    have hjf : zarr_cont orig (env j) = false := Nat.find_spec hex
    have hjle : j ≤ k0 := Nat.find_min' hex (by simpa using hk0f)
    have hjlt : j < MAX_ZARR_SYNCS := lt_of_le_of_lt hjle hk0
    have hcont : ∀ m, m < j → zarr_cont orig (env m) = true := by
      intro m hm
      have := Nat.find_min hex hm
      simpa using this
    have := hstop j hjlt hcont hjf
    rw [this] at hfatal
    exact zarr_classify_ne_fatal orig (env j) hjf hfatal
  · intro ob rc hr hne hmod
    unfold zarr_classify
    rw [hr]
    simp [hne, hmod]

/-- Witness for C4: with a server that always reports checksum "s" while
the local checksum stays "l" and `modified` stays 0, the loop runs exactly
5 iterations and fails fatally. -/
theorem C4_zarr_sync_budget_witness :
    zarr_run 0 (fun _ => ⟨"l", 0, some "s"⟩) = (.fatalMismatch, MAX_ZARR_SYNCS) :=
  (C4_zarr_sync_budget 0 (fun _ => ⟨"l", 0, some "s"⟩)).2.1 (by decide)

theorem register_asset_fst (t : AssetTracker) (a : RAsset) (force : Option String) :
    (register_asset t a force).1 =
      { t with
          local_assets := sdiscard a.path t.local_assets
          in_progress := dinsert a.path (asset2dict a) t.in_progress } := by
  unfold register_asset
  simp only []
  split_ifs <;> rfl

theorem syncRunStep_eq (force : Option String) (t : AssetTracker) (a : RAsset) :
    syncRunStep force t a = some
      { local_assets := sdiscard a.path t.local_assets
        in_progress := derase a.path (dinsert a.path (asset2dict a) t.in_progress)
        asset_metadata := dinsert a.path (asset2dict a) t.asset_metadata
        future_assets := t.future_assets
        remote_assets := sinsert a.path t.remote_assets } := by
  unfold syncRunStep
  rw [register_asset_fst]
  unfold finish_asset
  simp [dlookup_dinsert_self]

theorem isSome_dlookup_dinsert (k : String) (v : Nat) (m : List (String × Nat))
    (p : String) :
    (dlookup p (dinsert k v m)).isSome = true ↔ p = k ∨ (dlookup p m).isSome = true := by
  by_cases hp : p = k
  · subst hp
    simp [dlookup_dinsert_self]
  · simp [dlookup_dinsert_ne _ _ _ _ hp, hp]

theorem syncRun_spec (force : Option String) :
    ∀ (assets : List RAsset) (t : AssetTracker),
      ∃ tN, syncRun force t assets = some tN ∧
        (∀ p, tracker_has tN p = true ↔
          tracker_has t p = true ∨ p ∈ assets.map RAsset.path) ∧
        (∀ p, p ∈ tN.remote_assets ↔ p ∈ t.remote_assets ∨ p ∈ assets.map RAsset.path) ∧
        (∀ p, p ∈ tN.local_assets ↔ p ∈ t.local_assets ∧ p ∉ assets.map RAsset.path) ∧
        tN.future_assets = t.future_assets := by
  intro assets
  induction assets with
  | nil =>
      intro t
      exact ⟨t, rfl, by simp, by simp, by simp, rfl⟩
  | cons a rest ih =>
      intro t
      set t1 : AssetTracker :=
        { local_assets := sdiscard a.path t.local_assets
          in_progress := derase a.path (dinsert a.path (asset2dict a) t.in_progress)
          asset_metadata := dinsert a.path (asset2dict a) t.asset_metadata
          future_assets := t.future_assets
          remote_assets := sinsert a.path t.remote_assets } with ht1
      obtain ⟨tN, hrun, hhas, hrem, hloc, hfut⟩ := ih t1
      refine ⟨tN, ?_, ?_, ?_, ?_, by rw [hfut]⟩
      · have hsome : syncRunStep force t a = some t1 := by
          rw [ht1]
          exact syncRunStep_eq force t a
        have hstep : syncRun force t (a :: rest) = syncRun force t1 rest := by
          show (match syncRunStep force t a with
            | none => none
            | some t' => syncRun force t' rest) = syncRun force t1 rest
          rw [hsome]
        rw [hstep, hrun]
      · intro p
        rw [hhas p]
        simp only [ht1, tracker_has, List.map_cons, List.mem_cons]
        rw [isSome_dlookup_dinsert]
        tauto
      · intro p
        rw [hrem p, ht1]
        simp only [mem_sinsert]
        simp only [List.map_cons, List.mem_cons]
        tauto
      · intro p
        rw [hloc p, ht1]
        simp only [mem_sdiscard]
        simp only [List.map_cons, List.mem_cons]
        constructor
        · rintro ⟨⟨hmem, hne⟩, hnot⟩
          exact ⟨hmem, by rintro (h | h) <;> [exact hne h; exact hnot h]⟩
        · rintro ⟨hmem, hnot⟩
          exact ⟨⟨hmem, fun h => hnot (Or.inl h)⟩, fun h => hnot (Or.inr h)⟩

theorem get_deleted_go_spec (matchAsset : String → Bool) :
    ∀ (l : List String) (t : AssetTracker) (acc : List String),
      (get_deleted_go matchAsset l t acc).1.local_assets = t.local_assets ∧
      (get_deleted_go matchAsset l t acc).1.remote_assets = t.remote_assets ∧
      (get_deleted_go matchAsset l t acc).1.future_assets = t.future_assets ∧
      (∀ p, dlookup p (get_deleted_go matchAsset l t acc).1.asset_metadata =
        if matchAsset p = true ∧ p ∈ l then none else dlookup p t.asset_metadata) := by
  intro l
  induction l with
  | nil =>
      intro t acc
      refine ⟨rfl, rfl, rfl, ?_⟩
      intro p
      simp [get_deleted_go]
  | cons ap rest ih =>
      intro t acc
      by_cases hm : matchAsset ap = true
      · have h := ih { t with asset_metadata := derase ap t.asset_metadata } (acc ++ [ap])
        refine ⟨?_, ?_, ?_, ?_⟩
        · simpa [get_deleted_go, hm] using h.1
        · simpa [get_deleted_go, hm] using h.2.1
        · simpa [get_deleted_go, hm] using h.2.2.1
        · intro p
          have hp := h.2.2.2 p
          rw [show get_deleted_go matchAsset (ap :: rest) t acc =
            get_deleted_go matchAsset rest
              { t with asset_metadata := derase ap t.asset_metadata } (acc ++ [ap]) by
              simp [get_deleted_go, hm]]
          rw [hp, dlookup_derase]
          by_cases hpa : p = ap
          · subst hpa
            simp [hm]
          · by_cases hpm : matchAsset p = true <;>
              by_cases hpr : p ∈ rest <;> simp [hpa, hpm, hpr]
      · have h := ih t acc
        refine ⟨?_, ?_, ?_, ?_⟩
        · simpa [get_deleted_go, hm] using h.1
        · simpa [get_deleted_go, hm] using h.2.1
        · simpa [get_deleted_go, hm] using h.2.2.1
        · intro p
          have hp := h.2.2.2 p
          rw [show get_deleted_go matchAsset (ap :: rest) t acc =
            get_deleted_go matchAsset rest t acc by simp [get_deleted_go, hm]]
          rw [hp]
          by_cases hpa : p = ap
          · subst hpa
            simp [hm]
          · by_cases hpm : matchAsset p = true <;>
              by_cases hpr : p ∈ rest <;> simp [hpa, hpm, hpr]

theorem dlookup_filter_mem (R : List String) (m : List (String × Nat)) (p : String) :
    dlookup p (m.filter (fun kv => decide (kv.1 ∈ R))) =
      if p ∈ R then dlookup p m else none := by
  induction m with
  | nil => simp [dlookup]
  | cons kv rest ih =>
      obtain ⟨k, v⟩ := kv
      by_cases hk : k ∈ R <;> by_cases hp : k = p
      · subst hp
        simp [dlookup, hk]
      · simp [dlookup, hk, hp, ih]
      · subst hp
        simp [dlookup, hk, ih]
      · simp [dlookup, hk, hp, ih]

theorem tracker_has_prune (t : AssetTracker) (p : String) :
    tracker_has (prune_metadata t).1 p = true ↔
      tracker_has t p = true ∧ p ∈ t.remote_assets := by
  unfold prune_metadata tracker_has
  simp only []
  rw [dlookup_filter_mem]
  by_cases hp : p ∈ t.remote_assets <;> simp [hp]

/-- C2 amended: after a successful run in which every remote asset was
registered and finished, followed by `get_deleted` and `prune_metadata`,
the key set of the durable map equals `remote_assets` alone: the asset filter
plays no role, because `process_blob` finishes (and thus retains) assets
whose paths fail the filter, and `prune_metadata` keeps every path seen
from the server. -/
theorem C2_assets_json_keys :
    ∀ (localA : List String) (md0 : List (String × Nat)) (matchAsset : String → Bool)
      (force : Option String) (assets : List RAsset) (p : String),
      onSome (syncRun force (trackerFromDataset localA md0) assets) (fun tN =>
        tracker_has (prune_metadata (get_deleted tN matchAsset).1).1 p =
          (assets.map RAsset.path).contains p) := by
  intro localA md0 matchAsset force assets p
  obtain ⟨tN, hrun, hhas, hrem, hloc, _⟩ :=
    syncRun_spec force assets (trackerFromDataset localA md0)
  rw [hrun]
  simp only [onSome]
  have hgd := get_deleted_go_spec matchAsset tN.local_assets tN []
  have hremeq : (get_deleted tN matchAsset).1.remote_assets = tN.remote_assets := hgd.2.1
  rw [Bool.eq_iff_iff, tracker_has_prune, hremeq]
  unfold get_deleted
  rw [show tracker_has (get_deleted_go matchAsset tN.local_assets tN []).1 p =
      ((get_deleted_go matchAsset tN.local_assets tN []).1.asset_metadata |> dlookup p).isSome
    from rfl]
  rw [hgd.2.2.2 p]
  have hrem' : p ∈ tN.remote_assets ↔ p ∈ assets.map RAsset.path := by
    rw [hrem p]
    simp [trackerFromDataset]
  by_cases hp : p ∈ assets.map RAsset.path
  · have hnl : p ∉ tN.local_assets := by
      rw [hloc p]
      tauto
    have hmem : (assets.map RAsset.path).contains p = true := by
      exact List.elem_eq_true_of_mem hp
    rw [hmem]
    simp only [eq_self_iff_true, iff_true]
    refine ⟨?_, hrem'.mpr hp⟩
    have : ¬(matchAsset p = true ∧ p ∈ tN.local_assets) := fun ⟨_, h⟩ => hnl h
    rw [if_neg this]
    rw [show ((dlookup p tN.asset_metadata).isSome = true) ↔ tracker_has tN p = true
      from Iff.rfl]
    rw [hhas p]
    exact Or.inr hp
  · have hmem : (assets.map RAsset.path).contains p = false := by
      by_contra hcontra
      have : (assets.map RAsset.path).contains p = true := by
        revert hcontra
        cases (assets.map RAsset.path).contains p <;> simp
      exact hp (List.mem_of_elem_eq_true this)
    rw [hmem]
    simp only [Bool.false_eq_true, iff_false]
    rintro ⟨_, hr⟩
    exact hp (hrem'.mp hr)

/-- C2 counterexample: with an asset filter rejecting path "x" and a
single remote asset at "x" (registered and finished as `process_blob`
does), the path "x" survives `get_deleted` and `prune_metadata`, so the
durable key set is not `remote_assets ∩ matched_by_filter`. -/
theorem C2_counterexample : ¬ C2Statement := by
  intro h
  exact absurd
    (show (true : Bool) = false from
      h [] [] (fun q => !(q == "x")) none [⟨"x", 0, .blob, some "h", 1, "u", 5⟩] "x")
    (by decide)

theorem asset_loop_step_false (now : Int) (e : Bool) (st : DLState) (a : RAsset)
    (h : st.downloading = false) :
    ∃ st1, asset_loop_step now e st a = .ok st1 ∧
      st1.downloading = false ∧
      st1.actions = st.actions ∧
      st1.report.old_unhashed = st.report.old_unhashed +
        (if oldUnhashedCond now a then 1 else 0) ∧
      (∀ p, p ∈ st1.tracker.future_assets ↔ p ∈ st.tracker.future_assets ∨ p = a.path) := by
  unfold asset_loop_step
  rcases hdig : a.digest with _ | d <;>
    by_cases hb : a.atype = AssetType.blob <;>
    by_cases hage : now - a.created > ONE_DAY <;>
    simp [h, hdig, hb, hage, oldUnhashedCond, mark_future, mem_sinsert, Except.map] <;>
    tauto

theorem asset_loop_step_true_some (now : Int) (st : DLState) (a : RAsset) (d : String)
    (h : st.downloading = true) (hd : a.digest = some d) :
    ∃ st1, asset_loop_step now false st a = .ok st1 ∧
      st1.downloading = true ∧
      st1.actions = st.actions ++ [dlActionOf a] ∧
      st1.report = st.report ∧
      st1.tracker.future_assets = st.tracker.future_assets := by
  unfold asset_loop_step
  rcases hb : a.atype <;>
    simp [h, hd, hb, dlActionOf, Except.map]

theorem asset_loop_step_true_none (now : Int) (st : DLState) (a : RAsset)
    (h : st.downloading = true) (hd : a.digest = none) :
    ∃ st1, asset_loop_step now false st a = .ok st1 ∧
      st1.downloading = false ∧
      st1.actions = st.actions ∧
      st1.report.old_unhashed = st.report.old_unhashed +
        (if oldUnhashedCond now a then 1 else 0) ∧
      (∀ p, p ∈ st1.tracker.future_assets ↔ p ∈ st.tracker.future_assets ∨ p = a.path) := by
  unfold asset_loop_step
  rcases hb : a.atype <;>
    by_cases hage : now - a.created > ONE_DAY <;>
    simp [h, hd, hb, hage, oldUnhashedCond, mark_future, mem_sinsert, Except.map] <;>
    tauto

theorem asset_loop_go_false (now : Int) (e : Bool) :
    ∀ (items : List (Option RAsset)) (st : DLState), st.downloading = false →
      ∃ st', asset_loop_go now e st items = .ok st' ∧
        st'.downloading = false ∧
        st'.actions = st.actions ∧
        st'.report.old_unhashed = st.report.old_unhashed +
          (consumedAssets items).countP (oldUnhashedCond now) ∧
        (∀ p, p ∈ st'.tracker.future_assets ↔
          p ∈ st.tracker.future_assets ∨ p ∈ (consumedAssets items).map RAsset.path) := by
  intro items
  induction items with
  | nil =>
      intro st h
      exact ⟨st, rfl, h, rfl, by simp [consumedAssets], by simp [consumedAssets]⟩
  | cons it rest ih =>
      rcases it with _ | a
      · intro st h
        exact ⟨st, rfl, h, rfl, by simp [consumedAssets], by simp [consumedAssets]⟩
      · intro st h
        obtain ⟨st1, hstep, hdl1, hact1, hold1, hfut1⟩ :=
          asset_loop_step_false now e st a h
        obtain ⟨st', hrun, hdl', hact', hold', hfut'⟩ := ih st1 hdl1
        refine ⟨st', ?_, hdl', by rw [hact', hact1], ?_, ?_⟩
        · show (match asset_loop_step now e st a with
            | Except.error err => Except.error err
            | Except.ok st2 => asset_loop_go now e st2 rest) = Except.ok st'
          rw [hstep]
          exact hrun
        · rw [hold', hold1]
          simp only [consumedAssets, List.countP_cons]
          omega
        · intro p
          rw [hfut' p, hfut1 p]
          simp only [consumedAssets, List.map_cons, List.mem_cons]
          tauto

theorem asset_loop_go_true (now : Int) :
    ∀ (items : List (Option RAsset)) (st : DLState), st.downloading = true →
      ∃ st', asset_loop_go now false st items = .ok st' ∧
        st'.actions = st.actions ++ (dlPre (consumedAssets items)).map dlActionOf ∧
        st'.report.old_unhashed = st.report.old_unhashed +
          (dlPost (consumedAssets items)).countP (oldUnhashedCond now) ∧
        (∀ p, p ∈ st'.tracker.future_assets ↔
          p ∈ st.tracker.future_assets ∨
            p ∈ (dlPost (consumedAssets items)).map RAsset.path) := by
  intro items
  induction items with
  | nil =>
      intro st h
      exact ⟨st, rfl, by simp [consumedAssets, dlPre, dlPost],
        by simp [consumedAssets, dlPre, dlPost],
        by simp [consumedAssets, dlPre, dlPost]⟩
  | cons it rest ih =>
      rcases it with _ | a
      · intro st h
        exact ⟨st, rfl, by simp [consumedAssets, dlPre, dlPost],
          by simp [consumedAssets, dlPre, dlPost],
          by simp [consumedAssets, dlPre, dlPost]⟩
      · intro st h
        rcases hdg : a.digest with _ | d
        · -- the flip asset: downloading is cleared here
          have hlack : lacksDigest a = true := by simp [lacksDigest, hdg]
          obtain ⟨st1, hstep, hdl1, hact1, hold1, hfut1⟩ :=
            asset_loop_step_true_none now st a h hdg
          obtain ⟨st', hrun, hdl', hact', hold', hfut'⟩ :=
            asset_loop_go_false now false rest st1 hdl1
          refine ⟨st', ?_, ?_, ?_, ?_⟩
          · show (match asset_loop_step now false st a with
              | Except.error err => Except.error err
              | Except.ok st2 => asset_loop_go now false st2 rest) = Except.ok st'
            rw [hstep]
            exact hrun
          · rw [hact', hact1]
            simp [consumedAssets, dlPre, hlack]
          · rw [hold', hold1]
            simp [consumedAssets, dlPre, dlPost, hlack, List.countP_cons]
            omega
          · intro p
            rw [hfut' p, hfut1 p]
            simp [consumedAssets, dlPre, dlPost, hlack]
            tauto
        · -- digest available: the asset is dispatched, downloading stays set
          have hlack : lacksDigest a = false := by simp [lacksDigest, hdg]
          obtain ⟨st1, hstep, hdl1, hact1, hrep1, hfut1⟩ :=
            asset_loop_step_true_some now st a d h hdg
          obtain ⟨st', hrun, hact', hold', hfut'⟩ := ih st1 hdl1
          refine ⟨st', ?_, ?_, ?_, ?_⟩
          · show (match asset_loop_step now false st a with
              | Except.error err => Except.error err
              | Except.ok st2 => asset_loop_go now false st2 rest) = Except.ok st'
            rw [hstep]
            exact hrun
          · rw [hact', hact1]
            simp [consumedAssets, dlPre, hlack]
          · rw [hold', hrep1]
            simp [consumedAssets, dlPost, dlPre, hlack]
          · intro p
            rw [hfut' p, hfut1]
            simp [consumedAssets, dlPost, dlPre, hlack]

/-- Full characterization of one `asset_loop` invocation on an
unembargoed dandiset: the spawned tasks are exactly the assets before the
first digest-lacking asset, in order; every asset from that one on is
marked future; `old_unhashed` counts the deferred blobs older than a day
whose SHA256 is missing. -/
theorem asset_loop_spec (now : Int) (t : AssetTracker) (items : List (Option RAsset)) :
    ∃ st', asset_loop now false t items = .ok st' ∧
      st'.actions = (dlPre (consumedAssets items)).map dlActionOf ∧
      st'.report.old_unhashed =
        (dlPost (consumedAssets items)).countP (oldUnhashedCond now) ∧
      (∀ p, p ∈ st'.tracker.future_assets ↔
        p ∈ t.future_assets ∨ p ∈ (dlPost (consumedAssets items)).map RAsset.path) := by
  obtain ⟨st', hrun, hact, hold, hfut⟩ :=
    asset_loop_go_true now items ⟨true, t, {}, []⟩ rfl
  exact ⟨st', hrun, by simpa using hact, by simpa using hold, hfut⟩

theorem takeWhile_append_drop_self {α : Type} (p : α → Bool) :
    ∀ l : List α, l.takeWhile p ++ l.drop (l.takeWhile p).length = l := by
  intro l
  induction l with
  | nil => simp
  | cons a rest ih =>
      by_cases h : p a = true <;> simp [List.takeWhile_cons, h, ih]

theorem countP_congr_mem {α : Type} (p q : α → Bool) :
    ∀ l : List α, (∀ a ∈ l, p a = q a) → l.countP p = l.countP q := by
  intro l
  induction l with
  | nil => simp
  | cons a rest ih =>
      intro h
      simp only [List.countP_cons, h a (by simp), ih (fun b hb => h b (by simp [hb]))]

theorem dlActionOf_path (a : RAsset) : (dlActionOf a).path = a.path := by
  unfold dlActionOf
  rcases a.atype <;> rfl

theorem mem_dlPost_future (t : AssetTracker) (items : List (Option RAsset))
    (st : DLState)
    (hfut : ∀ p, p ∈ st.tracker.future_assets ↔
      p ∈ t.future_assets ∨ p ∈ (dlPost (consumedAssets items)).map RAsset.path)
    (hfut0 : t.future_assets = []) (b : RAsset)
    (hb : b ∈ dlPost (consumedAssets items)) :
    b.path ∈ st.tracker.future_assets := by
  rw [hfut b.path, hfut0]
  exact Or.inr (List.mem_map_of_mem RAsset.path hb)

/-- C3 amended: every blob lacking a SHA256 digest is deferred (marked
future, never dispatched for download), and `old_unhashed` counts exactly
the deferred blobs lacking a digest that are strictly more than 24 hours
old (`now - created > 1 day`); a blob exactly 24 hours old is deferred
without the counter. -/
theorem C3_unhashed_blob_deferral :
    ∀ (now : Int) (t : AssetTracker) (items : List (Option RAsset)),
      t.future_assets = [] →
      ((consumedAssets items).map RAsset.path).Nodup →
      onOk (asset_loop now false t items) (fun st =>
        (∀ a ∈ consumedAssets items, a.atype = .blob → a.digest = none →
          a.path ∈ st.tracker.future_assets ∧ ∀ act ∈ st.actions, act.path ≠ a.path) ∧
        st.report.old_unhashed =
          (consumedAssets items).countP (fun a =>
            decide (a.path ∈ st.tracker.future_assets) && (a.atype == .blob) &&
            a.digest.isNone && decide (now - a.created > ONE_DAY))) := by
  intro now t items hfut0 hnd
  obtain ⟨st', hrun, hact, hold, hfutm⟩ := asset_loop_spec now t items
  rw [hrun]
  simp only [onOk]
  have hsplit : dlPre (consumedAssets items) ++ dlPost (consumedAssets items) =
      consumedAssets items := takeWhile_append_drop_self _ _
  have hpre_lack : ∀ a ∈ dlPre (consumedAssets items), lacksDigest a = false := by
    intro a ha
    have := List.mem_takeWhile_imp ha
    simpa using this
  have hpost_mem : ∀ b ∈ dlPost (consumedAssets items),
      b.path ∈ st'.tracker.future_assets :=
    fun b hb => mem_dlPost_future t items st' hfutm hfut0 b hb
  have hdisj : ∀ b ∈ dlPost (consumedAssets items),
      b.path ∉ (dlPre (consumedAssets items)).map RAsset.path := by
    intro b hb hmem
    have : ((dlPre (consumedAssets items)).map RAsset.path ++
        (dlPost (consumedAssets items)).map RAsset.path).Nodup := by
      rw [← List.map_append, hsplit]
      exact hnd
    have hdis := (List.nodup_append.mp this).2.2
    exact hdis hmem (List.mem_map_of_mem RAsset.path hb)
  constructor
  · intro a ha hblob hdg
    have hlack : lacksDigest a = true := by simp [lacksDigest, hdg]
    have hmem : a ∈ dlPost (consumedAssets items) := by
      have hin : a ∈ dlPre (consumedAssets items) ++ dlPost (consumedAssets items) := by
        rw [hsplit]
        exact ha
      rcases List.mem_append.mp hin with h | h
      · rw [hpre_lack a h] at hlack
        exact absurd hlack (by simp)
      · exact h
    refine ⟨hpost_mem a hmem, ?_⟩
    intro act hactmem
    rw [hact] at hactmem
    obtain ⟨b, hbmem, hbeq⟩ := List.mem_map.mp hactmem
    rw [← hbeq, dlActionOf_path]
    intro hcontra
    exact hdisj a hmem (hcontra ▸ List.mem_map_of_mem RAsset.path hbmem)
  · rw [hold]
    have hpre0 : (dlPre (consumedAssets items)).countP (fun a =>
        decide (a.path ∈ st'.tracker.future_assets) && (a.atype == .blob) &&
        a.digest.isNone && decide (now - a.created > ONE_DAY)) = 0 := by
      rw [List.countP_eq_zero]
      intro a ha
      have hl : a.digest.isNone = false := by
        have := hpre_lack a ha
        simpa [lacksDigest] using this
      simp [hl]
    have hposteq : (dlPost (consumedAssets items)).countP (fun a =>
        decide (a.path ∈ st'.tracker.future_assets) && (a.atype == .blob) &&
        a.digest.isNone && decide (now - a.created > ONE_DAY)) =
        (dlPost (consumedAssets items)).countP (oldUnhashedCond now) := by
      apply countP_congr_mem
      intro a ha
      have hmem := hpost_mem a ha
      rcases hat : a.atype <;> rcases hdg : a.digest <;>
        by_cases hage : now - a.created > ONE_DAY <;>
        simp [oldUnhashedCond, hat, hdg, hage, hmem]
    have hcs : (consumedAssets items).countP (fun a =>
        decide (a.path ∈ st'.tracker.future_assets) && (a.atype == .blob) &&
        a.digest.isNone && decide (now - a.created > ONE_DAY)) =
        (dlPre (consumedAssets items)).countP (fun a =>
          decide (a.path ∈ st'.tracker.future_assets) && (a.atype == .blob) &&
          a.digest.isNone && decide (now - a.created > ONE_DAY)) +
        (dlPost (consumedAssets items)).countP (fun a =>
          decide (a.path ∈ st'.tracker.future_assets) && (a.atype == .blob) &&
          a.digest.isNone && decide (now - a.created > ONE_DAY)) := by
      conv_lhs => rw [← hsplit]
      exact List.countP_append _ _ _
    rw [hcs, hpre0, hposteq]
    omega

/-- C3 counterexample: a blob created exactly 24 hours before the sync
with no SHA256 digest is deferred but the code does not increment
`old_unhashed` (the comparison is strict), while the claimed "at least 24
hours" calls for an increment. -/
theorem C3_counterexample : ¬ C3Statement := by
  intro h
  exact absurd
    (show (0 : ℕ) = 1 from
      (h 86400 ⟨[], [], [], [], []⟩ [some ⟨"b", 0, .blob, none, 1, "u", 0⟩] rfl
        (by decide)).2)
    (by decide)

/-- Witness for C3 at a concrete instance: one blob without a digest,
created strictly more than a day before the sync. -/
theorem C3_unhashed_blob_deferral_witness :
    onOk (asset_loop 90000 false (⟨[], [], [], [], []⟩ : AssetTracker)
        [some ⟨"b", 0, .blob, none, 1, "u", 0⟩]) (fun st =>
      (∀ a ∈ consumedAssets [some ⟨"b", 0, .blob, none, 1, "u", 0⟩],
        a.atype = .blob → a.digest = none →
        a.path ∈ st.tracker.future_assets ∧ ∀ act ∈ st.actions, act.path ≠ a.path) ∧
      st.report.old_unhashed =
        (consumedAssets [some ⟨"b", 0, .blob, none, 1, "u", 0⟩]).countP (fun a =>
          decide (a.path ∈ st.tracker.future_assets) && (a.atype == .blob) &&
          a.digest.isNone && decide (90000 - a.created > ONE_DAY))) :=
  C3_unhashed_blob_deferral 90000 ⟨[], [], [], [], []⟩
    [some ⟨"b", 0, .blob, none, 1, "u", 0⟩] rfl (by decide)

/-- C10: the `downloading` flag is one-way — once an asset with an
unavailable digest is consumed, every later consumed asset (digest or
not) is only marked future: it appears in `future_assets` and no
`process_blob` / `process_zarr` task is spawned for its path. -/
theorem C10_downloading_flag_one_way :
    ∀ (now : Int) (t : AssetTracker) (items : List (Option RAsset)) (i j : Nat),
      t.future_assets = [] →
      ((consumedAssets items).map RAsset.path).Nodup →
      i ≤ j →
      onOk (asset_loop now false t items) (fun st =>
        ∀ a b, (consumedAssets items)[i]? = some a →
          (consumedAssets items)[j]? = some b →
          lacksDigest a = true →
          b.path ∈ st.tracker.future_assets ∧
            ∀ act ∈ st.actions, act.path ≠ b.path) := by
  intro now t items i j hfut0 hnd hij
  obtain ⟨st', hrun, hact, hold, hfutm⟩ := asset_loop_spec now t items
  rw [hrun]
  simp only [onOk]
  intro a b hia hjb hlack
  have hsplit : dlPre (consumedAssets items) ++ dlPost (consumedAssets items) =
      consumedAssets items := takeWhile_append_drop_self _ _
  have hilen : (dlPre (consumedAssets items)).length ≤ i := by
    by_contra hlt
    push_neg at hlt
    have : (consumedAssets items)[i]? = (dlPre (consumedAssets items))[i]? := by
      conv_lhs => rw [← hsplit]
      exact List.getElem?_append_left hlt
    rw [this] at hia
    have hmem : a ∈ dlPre (consumedAssets items) := List.getElem?_mem hia
    have := List.mem_takeWhile_imp hmem
    rw [hlack] at this
    simp at this
  have hjpost : b ∈ dlPost (consumedAssets items) := by
    have hlen : (dlPre (consumedAssets items)).length ≤ j := le_trans hilen hij
    have : (consumedAssets items)[j]? =
        (dlPost (consumedAssets items))[j - (dlPre (consumedAssets items)).length]? := by
      conv_lhs => rw [← hsplit]
      exact List.getElem?_append_right hlen
    rw [this] at hjb
    exact List.getElem?_mem hjb
  refine ⟨mem_dlPost_future t items st' hfutm hfut0 b hjpost, ?_⟩
  intro act hactmem
  rw [hact] at hactmem
  obtain ⟨c, hcmem, hceq⟩ := List.mem_map.mp hactmem
  rw [← hceq, dlActionOf_path]
  intro hcontra
  have hndapp : ((dlPre (consumedAssets items)).map RAsset.path ++
      (dlPost (consumedAssets items)).map RAsset.path).Nodup := by
    rw [← List.map_append, hsplit]
    exact hnd
  exact (List.nodup_append.mp hndapp).2.2
    (hcontra ▸ List.mem_map_of_mem RAsset.path hcmem)
    (List.mem_map_of_mem RAsset.path hjpost)

/-- Witness for C10: a digest-less blob followed by a fully hashed blob;
the second asset is still only deferred. -/
theorem C10_downloading_flag_one_way_witness :
    onOk (asset_loop 0 false (⟨[], [], [], [], []⟩ : AssetTracker)
        [some ⟨"a", 0, .blob, none, 1, "u", 0⟩, some ⟨"b", 1, .blob, some "h", 1, "u", 1⟩])
      (fun st =>
        ∀ a b,
          (consumedAssets [some ⟨"a", 0, .blob, none, 1, "u", 0⟩,
            some ⟨"b", 1, .blob, some "h", 1, "u", 1⟩])[0]? = some a →
          (consumedAssets [some ⟨"a", 0, .blob, none, 1, "u", 0⟩,
            some ⟨"b", 1, .blob, some "h", 1, "u", 1⟩])[1]? = some b →
          lacksDigest a = true →
          b.path ∈ st.tracker.future_assets ∧
            ∀ act ∈ st.actions, act.path ≠ b.path) :=
  C10_downloading_flag_one_way 0 ⟨[], [], [], [], []⟩
    [some ⟨"a", 0, .blob, none, 1, "u", 0⟩, some ⟨"b", 1, .blob, some "h", 1, "u", 1⟩]
    0 1 rfl (by decide) (by decide)

theorem aiterassetsAux_done :
    ∀ (assets : List RAsset) (vs : List RVersion) (lastTs : Option Int),
      (aiterassetsAux vs lastTs assets).done = nondecFrom lastTs assets := by
  intro assets
  induction assets with
  | nil => intro vs lastTs; simp [aiterassetsAux, nondecFrom]
  | cons a rest ih =>
      intro vs lastTs
      by_cases hok : tsOk lastTs a.created = true
      · by_cases hpop : popCond vs lastTs a.created = true <;>
          simp [aiterassetsAux, nondecFrom, hok, hpop, ih]
      · simp [aiterassetsAux, nondecFrom, hok]

theorem aiterassetsAux_filterMap :
    ∀ (assets : List RAsset) (vs : List RVersion) (lastTs : Option Int),
      (aiterassetsAux vs lastTs assets).output.filterMap id =
        assets.take (okPrefixLen lastTs assets) := by
  intro assets
  induction assets with
  | nil => intro vs lastTs; simp [aiterassetsAux, okPrefixLen]
  | cons a rest ih =>
      intro vs lastTs
      by_cases hok : tsOk lastTs a.created = true
      · by_cases hpop : popCond vs lastTs a.created = true <;>
          simp [aiterassetsAux, okPrefixLen, hok, hpop, ih]
      · simp [aiterassetsAux, okPrefixLen, hok]

/-- C9: `aiterassets` enforces non-decreasing `created` timestamps.  The
done flag is set iff the stream is non-decreasing (the assertion never
fires on an ordered stream), and the assets yielded are exactly the
longest ordered prefix: at the first out-of-order asset the generator
aborts, yielding neither that asset nor anything after it, and it never
reorders. -/
theorem C9_ordering_assertion :
    ∀ (isDraft : Bool) (versions : List RVersion) (assets : List RAsset),
      ((aiterassets isDraft versions assets).done = true ↔
        nondecFrom none assets = true) ∧
      (aiterassets isDraft versions assets).output.filterMap id =
        assets.take (okPrefixLen none assets) := by
  intro isDraft versions assets
  unfold aiterassets
  constructor
  · rw [aiterassetsAux_done]
  · rw [aiterassetsAux_filterMap]

theorem tsLt_of_tsOk_lt (lastTs : Option Int) (c d : Int)
    (h1 : tsOk lastTs c = true) (h2 : c < d) : tsLt lastTs d = true := by
  cases lastTs with
  | none => simp [tsLt]
  | some t =>
      simp only [tsOk, decide_eq_true_eq] at h1
      simp only [tsLt, decide_eq_true_eq]
      omega

theorem aiterassetsAux_spec :
    ∀ (assets : List RAsset) (vs : List RVersion) (lastTs : Option Int),
      nondecFrom lastTs assets = true →
      (aiterassetsAux vs lastTs assets).done = true ∧
      (aiterassetsAux vs lastTs assets).output.filterMap id = assets ∧
      (aiterassetsAux vs lastTs assets).pending =
        vs.drop (countNones (aiterassetsAux vs lastTs assets).output) ∧
      noneFollowed (aiterassetsAux vs lastTs assets).output = true ∧
      (boundaryAssets (aiterassetsAux vs lastTs assets).output).map some =
        (vs.take (countNones (aiterassetsAux vs lastTs assets).output)).map
          (fun v => assets.find? (fun b => decide (v.created ≤ b.created))) ∧
      (∀ v ∈ vs.take (countNones (aiterassetsAux vs lastTs assets).output),
        tsLt lastTs v.created = true) := by
  intro assets
  induction assets with
  | nil =>
      intro vs lastTs _
      simp [aiterassetsAux, countNones, noneFollowed, boundaryAssets]
  | cons a rest ih =>
      intro vs lastTs hnd
      have hok : tsOk lastTs a.created = true := by
        simp only [nondecFrom, Bool.and_eq_true] at hnd
        exact hnd.1
      have hnd' : nondecFrom (some a.created) rest = true := by
        simp only [nondecFrom, Bool.and_eq_true] at hnd
        exact hnd.2
      by_cases hpop : popCond vs lastTs a.created = true
      · -- a boundary is emitted; the deque must be nonempty
        rcases vs with _ | ⟨v, vs'⟩
        · simp [popCond] at hpop
        have hpops : tsLt lastTs v.created = true ∧ v.created ≤ a.created := by
          simpa [popCond] using hpop
        obtain ⟨hdone, hfm, hpend, hnf, hba, hG⟩ := ih vs' (some a.created) hnd'
        have hred : aiterassetsAux (v :: vs') lastTs (a :: rest) =
            ⟨none :: some a :: (aiterassetsAux vs' (some a.created) rest).output,
             (aiterassetsAux vs' (some a.created) rest).done,
             (aiterassetsAux vs' (some a.created) rest).pending⟩ := by
          simp [aiterassetsAux, hok, hpop]
        rw [hred]
        have hcn : countNones
            (none :: some a :: (aiterassetsAux vs' (some a.created) rest).output) =
            countNones (aiterassetsAux vs' (some a.created) rest).output + 1 := by
          simp [countNones, List.countP_cons]
        refine ⟨hdone, ?_, ?_, ?_, ?_, ?_⟩
        · simp only []
          rw [List.filterMap_cons, List.filterMap_cons]
          simpa using hfm
        · simp only [hcn]
          rw [List.drop_succ_cons]
          exact hpend
        · simpa [noneFollowed] using hnf
        · simp only [hcn]
          rw [List.take_succ_cons, List.map_cons]
          have hhead : (a :: rest).find? (fun b => decide (v.created ≤ b.created)) =
              some a :=
            List.find?_cons_of_pos _ (by simpa using hpops.2)
          rw [hhead]
          have htail : (vs'.take
              (countNones (aiterassetsAux vs' (some a.created) rest).output)).map
                (fun w => (a :: rest).find? (fun b => decide (w.created ≤ b.created))) =
              (vs'.take
              (countNones (aiterassetsAux vs' (some a.created) rest).output)).map
                (fun w => rest.find? (fun b => decide (w.created ≤ b.created))) := by
            apply List.map_congr_left
            intro w hw
            have hlt : a.created < w.created := by
              have := hG w hw
              simpa [tsLt] using this
            exact List.find?_cons_of_neg _ (by simp; omega)
          rw [htail]
          have hbared : boundaryAssets
              (none :: some a :: (aiterassetsAux vs' (some a.created) rest).output) =
              a :: boundaryAssets (aiterassetsAux vs' (some a.created) rest).output := by
            simp [boundaryAssets]
          rw [hbared, List.map_cons]
          exact congrArg (some a :: ·) hba
        · intro w hw
          simp only [hcn, List.take_succ_cons, List.mem_cons] at hw
          rcases hw with hw | hw
          · rw [hw]
            exact hpops.1
          · have hlt : a.created < w.created := by
              have := hG w hw
              simpa [tsLt] using this
            exact tsLt_of_tsOk_lt lastTs a.created w.created hok hlt
      · -- no boundary at this asset
        obtain ⟨hdone, hfm, hpend, hnf, hba, hG⟩ := ih vs (some a.created) hnd'
        have hred : aiterassetsAux vs lastTs (a :: rest) =
            ⟨some a :: (aiterassetsAux vs (some a.created) rest).output,
             (aiterassetsAux vs (some a.created) rest).done,
             (aiterassetsAux vs (some a.created) rest).pending⟩ := by
          simp [aiterassetsAux, hok, hpop]
        rw [hred]
        have hcn : countNones
            (some a :: (aiterassetsAux vs (some a.created) rest).output) =
            countNones (aiterassetsAux vs (some a.created) rest).output := by
          simp [countNones, List.countP_cons]
        refine ⟨hdone, ?_, ?_, ?_, ?_, ?_⟩
        · simp only []
          rw [List.filterMap_cons]
          simpa using hfm
        · simp only [hcn]
          exact hpend
        · simpa [noneFollowed] using hnf
        · simp only [hcn]
          have htail : (vs.take
              (countNones (aiterassetsAux vs (some a.created) rest).output)).map
                (fun w => (a :: rest).find? (fun b => decide (w.created ≤ b.created))) =
              (vs.take
              (countNones (aiterassetsAux vs (some a.created) rest).output)).map
                (fun w => rest.find? (fun b => decide (w.created ≤ b.created))) := by
            apply List.map_congr_left
            intro w hw
            have hlt : a.created < w.created := by
              have := hG w hw
              simpa [tsLt] using this
            exact List.find?_cons_of_neg _ (by simp; omega)
          rw [htail]
          have hbared : boundaryAssets
              (some a :: (aiterassetsAux vs (some a.created) rest).output) =
              boundaryAssets (aiterassetsAux vs (some a.created) rest).output := by
            simp [boundaryAssets]
          rw [hbared]
          exact hba
        · intro w hw
          simp only [hcn] at hw
          have hlt : a.created < w.created := by
            have := hG w hw
            simpa [tsLt] using this
          exact tsLt_of_tsOk_lt lastTs a.created w.created hok hlt

theorem sortedVls_of_sorted :
    ∀ vs : List RVersion, List.Sorted vleR vs → sortedVls vs = true := by
  intro vs h
  induction vs with
  | nil => rfl
  | cons v rest ih =>
      rcases rest with _ | ⟨w, rest'⟩
      · rfl
      · rw [List.sorted_cons] at h
        have hvw : vleR v w := h.1 w (by simp)
        have htl := ih h.2
        simp only [sortedVls, Bool.and_eq_true]
        exact ⟨by simpa [vleR] using hvw, htl⟩

theorem sortedVls_sortVersions (vs : List RVersion) :
    sortedVls (sortVersions vs) = true :=
  sortedVls_of_sorted _ (List.sorted_insertionSort vleR vs)

/-- C1 amended: on an ordered asset stream the draft enumerator holds the
non-draft versions ascending by creation time and yields every asset in
order; each boundary sentinel sits immediately before an asset (never at
the end, never doubled); the versions removed from the pending deque form
a prefix of the ascending version list — one per sentinel, in order — and
the k-th sentinel is yielded immediately before the first asset whose
`created` is at or after the `created` of the k-th version.  (Unlike the
original claim, a pending version whose first crossing asset also first
crosses an earlier pending version is never removed and never gets a
sentinel: at most one sentinel precedes each asset.) -/
theorem C1_version_boundaries :
    ∀ (versions : List RVersion) (assets : List RAsset),
      nondecFrom none assets = true →
      sortedVls (sortVersions versions) = true ∧
      (aiterassets true versions assets).done = true ∧
      (aiterassets true versions assets).output.filterMap id = assets ∧
      noneFollowed (aiterassets true versions assets).output = true ∧
      (aiterassets true versions assets).pending =
        (sortVersions versions).drop
          (countNones (aiterassets true versions assets).output) ∧
      (boundaryAssets (aiterassets true versions assets).output).map some =
        ((sortVersions versions).take
          (countNones (aiterassets true versions assets).output)).map
          (fun v => assets.find? (fun b => decide (v.created ≤ b.created))) := by
  intro versions assets hnd
  have heq : aiterassets true versions assets =
      aiterassetsAux (sortVersions versions) none assets := rfl
  have h := aiterassetsAux_spec assets (sortVersions versions) none hnd
  rw [heq]
  exact ⟨sortedVls_sortVersions versions, h.1, h.2.1, h.2.2.2.1, h.2.2.1,
    h.2.2.2.2.1⟩

/-- C1 counterexample: two published versions (created at 1 and 2) both
first crossed by the single asset created at 3.  The enumerator yields
only one sentinel and removes only the first version, but the claim calls
for one sentinel per crossed version. -/
theorem C1_counterexample : ¬ C1Statement := by
  intro h
  have h2 := h [⟨"v1", 1⟩, ⟨"v2", 2⟩] [⟨"a", 3, .blob, some "h", 1, "u", 0⟩]
    (by decide)
  exact absurd h2.2.1 (by decide)

/-- Witness for C1 at a concrete instance: one version, one crossing
asset. -/
theorem C1_version_boundaries_witness :
    nondecFrom none [⟨"a", 3, .blob, some "h", 1, "u", 0⟩] = true ∧
    (aiterassets true [⟨"v1", 1⟩]
      [⟨"a", 3, .blob, some "h", 1, "u", 0⟩]).done = true :=
  ⟨by decide,
   (C1_version_boundaries [⟨"v1", 1⟩] [⟨"a", 3, .blob, some "h", 1, "u", 0⟩]
     (by decide)).2.1⟩

end B2D
